import Mathlib

/-!
# Verification of the ReSpecT artifact consistency engine

Shallow embedding of the core of the `respect_mcp.respect_manager` package:
the artifact index (ledger) operations, identifier resolution, the managed
header codec, the provisional-ID finalization algorithm, covering-test
status propagation and the step-done rewriting.

Strings are modelled as `List Char` (`Str` below), mirroring the Python
code's character-level operations (`str.strip`, `str.split`, regex scans
with word boundaries).  Each definition is translated from the Python
source; doc comments name the Python symbol it embeds.
-/

namespace Respect

/-- Strings are modelled as lists of characters. -/
abbrev Str := List Char

/-- Coerce a Lean string literal into the model representation. -/
def str (s : String) : Str := s.data

/-- Python `str.isspace` / the whitespace class used by `str.strip`
(restricted to the ASCII whitespace actually occurring in the data). -/
def isWs (c : Char) : Bool := c.isWhitespace

/-- Drop whitespace from the end of a string (`str.rstrip()`). -/
def dropEndWs (s : Str) : Str := (s.reverse.dropWhile isWs).reverse

/-- Python `str.strip()`: drop whitespace from both ends. -/
def pyStrip (s : Str) : Str := dropEndWs (s.dropWhile isWs)

/-- Python `str.upper()` (ASCII). -/
def upper (s : Str) : Str := s.map Char.toUpper

/-- Python `str.isdigit()`: non-empty and all digits. -/
def isDigitStr (s : Str) : Bool := !s.isEmpty && s.all Char.isDigit

/-- Python `'\n'.join(lines)`. -/
def joinLines (ls : List Str) : Str := List.intercalate [ '\n' ] ls

/-- Python `content.split('\n')`. -/
def splitNl (s : Str) : List Str := s.splitOn '\n'

/-- Python `s.split(',')`. -/
def splitComma (s : Str) : List Str := s.splitOn ','

/-- Python `','.join(parts)`. -/
def joinComma (ls : List Str) : Str := List.intercalate [ ',' ] ls

/-- The digit character for a value `0 ≤ d ≤ 9` (used by `str(int)`). -/
def digitChar (d : Nat) : Char := Char.ofNat (48 + d)

/-- Fuel-driven decimal rendering (structural recursion so that concrete
values reduce definitionally). -/
def natToDigitsAux : Nat → Nat → Str
  | 0, _ => []
  | fuel + 1, n =>
      if n < 10 then [digitChar n]
      else natToDigitsAux fuel (n / 10) ++ [digitChar (n % 10)]

/-- Python `str(n)` for a non-negative integer: decimal digits. -/
def natToDigits (n : Nat) : Str := natToDigitsAux (n + 1) n

/-- Python `int(s)` on a digit string. -/
def digitsVal (s : Str) : Nat := s.foldl (fun n c => n * 10 + (c.toNat - 48)) 0

/-! ## Index Store (`artifact_index_manager.py`)

The index file is modelled as the list of entries that
`ArtifactIndexManager.get_all_artifacts` parses out of it: the dictionaries
`{doc_id, artifact_id, name, status, is_file, parent}`.  `doc_id` is kept as
the string the parser stores (`parts[COL_ID].strip()`). -/

/-- A parsed ledger record (`ArtifactIndexManager._parse_index_line` result). -/
structure IndexEntry where
  docId : Str
  artifactId : Str
  name : Option Str := none
  status : Option Str := none
  isFile : Bool := true
  parent : Option Str := none
deriving Repr, DecidableEq

/-- `ArtifactIndexManager.get_next_doc_id`: `max(int(doc_id)) + 1`, or `1`
when the index has no entries. -/
def getNextDocId (entries : List IndexEntry) : Nat :=
  if entries.isEmpty then 1
  else (entries.foldl (fun m e => max m (digitsVal e.docId)) 0) + 1

/-- `ArtifactIndexManager.get_artifact_by_id`: case-insensitive scan. -/
def getArtifactById (entries : List IndexEntry) (artifactId : Str) :
    Option IndexEntry :=
  entries.find? (fun e => upper e.artifactId == upper artifactId)

/-- `ArtifactIndexManager.add_artifact`: fails when the artifact ID is
already present (case-insensitively); otherwise appends one record whose
`doc_id` is `str(get_next_doc_id())` and returns the new doc id.  The
read-max/append sequence happens under the ledger lock, so sequential
composition models it. -/
def addArtifact (entries : List IndexEntry) (artifactId : Str)
    (name : Option Str) (status : Option Str) (isFile : Bool)
    (parent : Option Str) : Except Str (List IndexEntry × Str) :=
  match getArtifactById entries artifactId with
  | some _ => .error (str "Artifact already exists")
  | none =>
      let docId := natToDigits (getNextDocId entries)
      .ok (entries ++
        [{ docId := docId, artifactId := artifactId, name := name,
           status := status, isFile := isFile, parent := parent }], docId)

/-- One `add_artifact` request (the arguments of a call). -/
structure AddReq where
  artifactId : Str
  name : Option Str := none
  status : Option Str := none
  isFile : Bool := true
  parent : Option Str := none

/-- Run a sequence of `add_artifact` calls; a failed call (duplicate
artifact ID) leaves the index unchanged. -/
def runAdds (reqs : List AddReq) (entries : List IndexEntry) :
    List IndexEntry :=
  match reqs with
  | [] => entries
  | r :: rs =>
      match addArtifact entries r.artifactId r.name r.status r.isFile r.parent with
      | .ok (es, _) => runAdds rs es
      | .error _ => runAdds rs entries

/-- `ArtifactManager.resolve_artifact_identifier`: a purely numeric token is
looked up by `doc_id` (string comparison against the stored string); any
other token is uppercased and looked up by exact `artifact_id`. -/
def resolveArtifactIdentifier (entries : List IndexEntry)
    (identifier : Str) : Option Str :=
  if isDigitStr identifier then
    entries.findSome? (fun e =>
      if e.docId == identifier then some e.artifactId else none)
  else
    entries.findSome? (fun e =>
      if e.artifactId == upper identifier then some (upper identifier) else none)

/-! ## Type registry (`artifact_type_manager.py`)

The registry is loaded from `artifact_types.json` (configuration shipped
with the package, not part of `src/`); the engine is parametric in it, so
the embedding takes the registry as an argument.  A header format template
`"# PRD-{id}: {description}"` always has the shape
`pre ++ "{id}" ++ mid ++ "{description}"`; it is modelled by the pair
`(pre, mid)`. -/

/-- One artifact-type registry entry (the fields the embedded code reads). -/
structure TypeDef where
  code : Str
  isFile : Bool := false
  canToolUpdate : Bool := false
  hasSteps : Bool := false
  headerFormat : Option (Str × Str) := none
deriving Repr, DecidableEq

/-- The type registry: `artifact_types` in declaration order. -/
abbrev TypeRegistry := List TypeDef

/-- `ArtifactTypeManager.is_valid_artifact_type`. -/
def isValidArtifactType (reg : TypeRegistry) (ty : Str) : Bool :=
  reg.any (fun td => td.code == upper ty)

/-- `ArtifactTypeManager.validate_and_normalize_artifact_type`:
strip, uppercase and check membership. -/
def normalizeArtifactType (reg : TypeRegistry) (ty : Str) : Option Str :=
  let n := upper (pyStrip ty)
  if n.isEmpty then none
  else if isValidArtifactType reg n then some n else none

/-- `ArtifactTypeManager.can_tool_update` for a valid type code. -/
def canToolUpdate (reg : TypeRegistry) (ty : Str) : Bool :=
  match reg.find? (fun td => td.code == upper ty) with
  | some td => td.canToolUpdate
  | none => false

/-- `ArtifactTypeManager.get_artifact_type_from_id`: the ID must match
`^([A-Z]+)-\d+$` after uppercasing, and the letter prefix must be a valid
type. -/
def getArtifactTypeFromId (reg : TypeRegistry) (artifactId : Str) :
    Except Str Str :=
  let u := upper artifactId
  let letters := u.takeWhile (fun c => 'A' ≤ c && c ≤ 'Z')
  if letters.isEmpty then .error (str "Invalid artifact ID format")
  else
    match u.drop letters.length with
    | '-' :: rest =>
        if rest.isEmpty || !rest.all Char.isDigit then
          .error (str "Invalid artifact ID format")
        else if isValidArtifactType reg letters then .ok letters
        else .error (str "Invalid artifact type")
    | _ => .error (str "Invalid artifact ID format")

/-! ## Artifact ID allocation (`ArtifactManager.get_artifact_id`) -/

/-- `ArtifactManager.get_artifact_id`: validate the type, read the next
doc id, build `TYPE-<id>` and add it to the index (the internal
`add_artifact` recomputes the same next id sequentially).  A registry
validation error or a duplicate-artifact error is a raised `ValueError`. -/
def getArtifactId (reg : TypeRegistry) (entries : List IndexEntry)
    (ty : Str) (name : Option Str) (isFile : Bool) (parent : Option Str) :
    Except Str (Str × List IndexEntry) :=
  match normalizeArtifactType reg ty with
  | none => .error (str "Invalid artifact type")
  | some tyU =>
      let nextId := getNextDocId entries
      let artifactId := tyU ++ str "-" ++ natToDigits nextId
      match addArtifact entries artifactId name none isFile parent with
      | .error e => .error e
      | .ok (es, _) => .ok (artifactId, es)

/-! ## Regex word boundaries and whole-word substitution

`_process_provisional_ids` replaces provisional tokens with
`re.sub(r'\b' + re.escape(pid) + r'\b', new_id, content)`: a left-to-right,
non-overlapping scan; the boundary context of later matches comes from the
original text (`re.sub` continues scanning after each match). -/

/-- Python regex word character (`\w`, ASCII): letters, digits, underscore. -/
def isWordChar (c : Char) : Bool := c.isAlphanum || c == '_'

/-- A `\b` boundary between an optional previous and next character: the
two sides differ in word-character-ness (string edges count as non-word). -/
def isBoundary (prev next : Option Char) : Bool :=
  (match prev with | none => false | some c => isWordChar c)
    != (match next with | none => false | some c => isWordChar c)

/-- `re.sub(r'\b<pat>\b', rep, ·)` scanner; `prev` is the character before
the current position in the original text, `fuel` bounds the recursion
(callers pass the text length, which always suffices for non-empty
patterns). -/
def subWordFuel (pat rep : Str) : Nat → Option Char → Str → Str
  | 0, _, s => s
  | fuel + 1, prev, s =>
      match s with
      | [] => []
      | c :: cs =>
          if pat.isPrefixOf (c :: cs) && isBoundary prev pat.head?
              && isBoundary pat.getLast? (((c :: cs).drop pat.length).head?) then
            rep ++ subWordFuel pat rep fuel pat.getLast? ((c :: cs).drop pat.length)
          else
            c :: subWordFuel pat rep fuel (some c) cs

/-- Whole-word substitution of `pat` by `rep` (case-sensitive, exactly as
`re.sub` with word boundaries is used in the source). -/
def subWord (pat rep s : Str) : Str := subWordFuel pat rep s.length none s

/-- `re.search` for a word-bounded occurrence of `pat` (used on the
filename stem in `_generate_target_filename`). -/
def hasWordMatchFuel (pat : Str) : Nat → Option Char → Str → Bool
  | 0, _, _ => false
  | _ + 1, _, [] => false
  | fuel + 1, prev, c :: cs =>
      if pat.isPrefixOf (c :: cs) && isBoundary prev pat.head?
          && isBoundary pat.getLast? (((c :: cs).drop pat.length).head?) then
        true
      else hasWordMatchFuel pat fuel (some c) cs

/-- Whether `s` contains a word-bounded occurrence of `pat`. -/
def hasWordMatch (pat s : Str) : Bool := hasWordMatchFuel pat s.length none s

/-- Python `needle in haystack` (contiguous substring test). -/
def strIn (needle : Str) : Str → Bool
  | [] => needle.isEmpty
  | c :: rest => needle.isPrefixOf (c :: rest) || strIn needle rest

/-! ## Provisional-ID scanning (`ArtifactTypeManager`) -/

/-- Case-insensitive literal prefix test (`pat` is given uppercased). -/
def ciPrefix (pat s : Str) : Bool := upper (s.take pat.length) == pat

/-- Match of `(<T1>|<T2>|…)-PROVISIONAL\d+\b` (case-insensitive) at the
current position, trying the registry's types in declaration order exactly
like the regex alternation; returns the match length.  The `\d+` run is
maximal, and the trailing `\b` requires the next character to be a
non-word character (or the end). -/
def matchProvLen (reg : TypeRegistry) (s : Str) : Option Nat :=
  reg.findSome? fun td =>
    let ty := td.code
    if ciPrefix ty s then
      let r1 := s.drop ty.length
      if ciPrefix (str "-PROVISIONAL") r1 then
        let r2 := r1.drop 12
        let digits := r2.takeWhile Char.isDigit
        if digits.isEmpty then none
        else
          match (r2.drop digits.length).head? with
          | some c =>
              if isWordChar c then none
              else some (ty.length + 12 + digits.length)
          | none => some (ty.length + 12 + digits.length)
      else none
    else none

/-- The scan of `ArtifactTypeManager.find_provisional_artifact_ids`:
collect every word-bounded `TYPE-PROVISIONAL<digits>` match (uppercased),
left to right, non-overlapping. -/
def scanProvFuel (reg : TypeRegistry) : Nat → Option Char → Str → List Str
  | 0, _, _ => []
  | _ + 1, _, [] => []
  | fuel + 1, prev, c :: cs =>
      match (if isBoundary prev (some c) then matchProvLen reg (c :: cs)
             else none) with
      | some n =>
          upper ((c :: cs).take n)
            :: scanProvFuel reg fuel ((c :: cs).take n).getLast? ((c :: cs).drop n)
      | none => scanProvFuel reg fuel (some c) cs

/-- Remove duplicates, keeping first occurrences (the source collects the
matches into a Python `set`; only membership matters because the result is
sorted before use). -/
def dedupStrAux (seen : List Str) : List Str → List Str
  | [] => []
  | x :: xs =>
      if seen.contains x then dedupStrAux seen xs
      else x :: dedupStrAux (x :: seen) xs

/-- Deduplication entry point. -/
def dedupStr (l : List Str) : List Str := dedupStrAux [] l

/-- Python string `<=`: lexicographic comparison by code point. -/
def strLe : Str → Str → Bool
  | [], _ => true
  | _ :: _, [] => false
  | a :: as, b :: bs =>
      if a.toNat < b.toNat then true
      else if b.toNat < a.toNat then false
      else strLe as bs

/-- Insertion into a sorted list (for `sorted(...)`). -/
def insertSorted (x : Str) : List Str → List Str
  | [] => [x]
  | y :: ys => if strLe x y then x :: y :: ys else y :: insertSorted x ys

/-- Python `sorted` on strings. -/
def sortStr : List Str → List Str
  | [] => []
  | x :: xs => insertSorted x (sortStr xs)

/-- `ArtifactTypeManager.find_provisional_artifact_ids` followed by the
`sorted(...)` normalisation applied by every caller (the set itself has no
observable order). -/
def findProvisionalArtifactIds (reg : TypeRegistry) (s : Str) : List Str :=
  sortStr (dedupStr (scanProvFuel reg s.length none s))

/-- `ArtifactTypeManager.parse_provisional_id`: match
`^([A-Z]+)-PROVISIONAL(\d+)$` against the uppercased ID and validate the
type; returns `(type, digits)`. -/
def parseProvisionalId (reg : TypeRegistry) (pid : Str) :
    Except Str (Str × Str) :=
  let u := upper pid
  let letters := u.takeWhile (fun c => 'A' ≤ c && c ≤ 'Z')
  if letters.isEmpty then .error (str "Invalid provisional ID format")
  else
    match u.drop letters.length with
    | '-' :: rest =>
        if (str "PROVISIONAL").isPrefixOf rest then
          let digits := rest.drop 11
          if digits.isEmpty || !digits.all Char.isDigit then
            .error (str "Invalid provisional ID format")
          else if isValidArtifactType reg letters then .ok (letters, digits)
          else .error (str "Invalid artifact type in provisional ID")
        else .error (str "Invalid provisional ID format")
    | _ => .error (str "Invalid provisional ID format")

/-! ## Provisional-ID processing (`ArtifactManager`) -/

/-- `ArtifactManager._extract_artifact_name` on one line: match
`^#+\s*<aid>:\s*(.+)$` (case-insensitive on the ID) against the stripped
line; returns the stripped description. -/
def matchNameLine (aid line : Str) : Option Str :=
  let l := pyStrip line
  let hashes := l.takeWhile (fun c => c == '#')
  if hashes.isEmpty then none
  else
    let r1 := (l.drop hashes.length).dropWhile isWs
    if ciPrefix (upper aid) r1 then
      match r1.drop aid.length with
      | ':' :: r3 =>
          let v := r3.dropWhile isWs
          if v.isEmpty then none else some (pyStrip v)
      | _ => none
    else none

/-- `ArtifactManager._extract_artifact_name`: first matching line wins. -/
def extractArtifactName (content aid : Str) : Option Str :=
  (splitNl content).findSome? (fun line => matchNameLine aid line)

/-- `ArtifactManager._is_main_artifact`: the ID occurs in a `#`/`##`
heading line (substring test on the stripped line), or the type portion of
the ID declares `is_file: true` in the registry (unknown types fall back
to `False`). -/
def isMainArtifact (reg : TypeRegistry) (content aid : Str) : Bool :=
  ((splitNl content).any (fun line =>
    let l := pyStrip line
    (l.take 1 == ['#']) && !((str "###").isPrefixOf l) && strIn aid l))
  || (if aid.any (fun c => c == '-') then
        match reg.find? (fun td => td.code == upper (aid.takeWhile (fun c => c ≠ '-'))) with
        | some td => td.isFile
        | none => false
      else false)

/-- Result triple of `_process_provisional_ids`(`_filtered`). -/
structure ProvResult where
  idMapping : List (Str × Str)
  content : Str
  names : List (Str × Str)
deriving Repr, DecidableEq

/-- Loop state shared by the main/nested processing passes. -/
structure ProvLoopState where
  entries : List IndexEntry
  mapping : List (Str × Str)
  names : List (Str × Str)
  updated : Str
  parentForNested : Option Str
deriving Repr, DecidableEq

/-- The main-artifact loop of `_process_provisional_ids`: allocate with
`is_file=True`, `parent=None`; a `ValueError` (unparsable ID or duplicate
artifact) skips the ID (`continue`); the first main artifact becomes the
parent for nested ones when none was supplied. -/
def processMains (reg : TypeRegistry) (content : Str) :
    List Str → ProvLoopState → ProvLoopState
  | [], st => st
  | pid :: rest, st =>
      match parseProvisionalId reg pid with
      | .error _ => processMains reg content rest st
      | .ok (ty, _) =>
          let name := extractArtifactName content pid
          match getArtifactId reg st.entries ty name true none with
          | .error _ => processMains reg content rest st
          | .ok (newId, es) =>
              processMains reg content rest
                { entries := es,
                  mapping := st.mapping ++ [(pid, newId)],
                  names := st.names ++
                    (match name with | some n => [(newId, n)] | none => []),
                  updated := subWord pid newId st.updated,
                  parentForNested :=
                    match st.parentForNested with
                    | some p => some p
                    | none => some newId }

/-- The nested-artifact loop of `_process_provisional_ids`: allocate with
`is_file=False` and the determined parent. -/
def processNesteds (reg : TypeRegistry) (content : Str) :
    List Str → ProvLoopState → ProvLoopState
  | [], st => st
  | pid :: rest, st =>
      match parseProvisionalId reg pid with
      | .error _ => processNesteds reg content rest st
      | .ok (ty, _) =>
          let name := extractArtifactName content pid
          match getArtifactId reg st.entries ty name false st.parentForNested with
          | .error _ => processNesteds reg content rest st
          | .ok (newId, es) =>
              processNesteds reg content rest
                { entries := es,
                  mapping := st.mapping ++ [(pid, newId)],
                  names := st.names ++
                    (match name with | some n => [(newId, n)] | none => []),
                  updated := subWord pid newId st.updated,
                  parentForNested := st.parentForNested }

/-- `ArtifactManager._process_provisional_ids` (used by
`finalize_provisional_file`): find the (sorted) provisional IDs, classify
into main/nested, allocate mains then nesteds, replacing all word-bounded
token occurrences.  It performs **no** `PROVISIONALk.m` step-reference
rewriting. -/
def processProvisionalIds (reg : TypeRegistry) (entries : List IndexEntry)
    (content : Str) (parentArtifactId : Option Str) :
    ProvResult × List IndexEntry :=
  let pids := findProvisionalArtifactIds reg content
  if pids.isEmpty then (⟨[], content, []⟩, entries)
  else
    let mains := pids.filter (fun pid => isMainArtifact reg content pid)
    let nesteds := pids.filter (fun pid => !(isMainArtifact reg content pid))
    let st0 : ProvLoopState := ⟨entries, [], [], content, parentArtifactId⟩
    let st1 := processMains reg content mains st0
    let st2 := processNesteds reg content nesteds st1
    (⟨st2.mapping, st2.updated, st2.names⟩, st2.entries)

/-- `re.search(r'PROVISIONAL(\d+)$', pid)`: the trailing digit run when it
is directly preceded by the literal `PROVISIONAL`. -/
def provNumOf (pid : Str) : Option Str :=
  let ds := (pid.reverse.takeWhile Char.isDigit).reverse
  if ds.isEmpty then none
  else if (str "PROVISIONAL").isSuffixOf (pid.take (pid.length - ds.length))
  then some ds else none

/-- `re.search(r'-(\d+)$', aid)`: the trailing digit run when preceded by
`-`. -/
def numSuffixOf (aid : Str) : Option Str :=
  let ds := (aid.reverse.takeWhile Char.isDigit).reverse
  if ds.isEmpty then none
  else
    match (aid.take (aid.length - ds.length)).getLast? with
    | some '-' => some ds
    | _ => none

/-- `re.sub(r'\bPROVISIONAL<num>\.(\d+)', '<newNum>.\1', ·)` scanner:
case-sensitive, `\b` before the literal (whose first character `P` is a
word character, so the previous character must be non-word), greedy digits
after the dot which are preserved by the replacement. -/
def subStepFuel (num newNum : Str) : Nat → Option Char → Str → Str
  | 0, _, s => s
  | _ + 1, _, [] => []
  | fuel + 1, prev, c :: cs =>
      let pat := str "PROVISIONAL" ++ num ++ ['.']
      if pat.isPrefixOf (c :: cs)
          && !(match prev with | none => false | some p => isWordChar p) then
        let after := (c :: cs).drop pat.length
        let digits := after.takeWhile Char.isDigit
        if digits.isEmpty then c :: subStepFuel num newNum fuel (some c) cs
        else
          (newNum ++ ['.'] ++ digits)
            ++ subStepFuel num newNum fuel digits.getLast? (after.drop digits.length)
      else c :: subStepFuel num newNum fuel (some c) cs

/-- Step-reference rewriting `PROVISIONAL<num>.<m> → <newNum>.<m>`. -/
def subStep (num newNum s : Str) : Str := subStepFuel num newNum s.length none s

/-- The per-ID loop of `_process_provisional_ids_filtered`: allocate with
`is_file=False` and the given parent, replace word-bounded token
occurrences, then rewrite step references; a `ValueError` is re-raised
(`raise`), failing the whole call. -/
def processFilteredLoop (reg : TypeRegistry) (content : Str)
    (parent : Option Str) :
    List Str → (List IndexEntry × List (Str × Str) × List (Str × Str) × Str) →
    Except Str (ProvResult × List IndexEntry)
  | [], (es, mp, nm, upd) => .ok (⟨mp, upd, nm⟩, es)
  | pid :: rest, (es, mp, nm, upd) =>
      match parseProvisionalId reg pid with
      | .error e => .error e
      | .ok (ty, _) =>
          let name := extractArtifactName content pid
          match getArtifactId reg es ty name false parent with
          | .error e => .error e
          | .ok (newId, es') =>
              let upd1 := subWord pid newId upd
              let upd2 :=
                match provNumOf pid, numSuffixOf newId with
                | some num, some newNum => subStep num newNum upd1
                | _, _ => upd1
              processFilteredLoop reg content parent rest
                (es', mp ++ [(pid, newId)],
                 nm ++ (match name with | some n => [(newId, n)] | none => []),
                 upd2)

/-- `ArtifactManager._process_provisional_ids_filtered` (used by
`register_provisional_ids`): optional type filtering, nested-only
allocation, token replacement **and** `PROVISIONALk.m → <finalNumber>.m`
step-reference rewriting. -/
def processProvisionalIdsFiltered (reg : TypeRegistry)
    (entries : List IndexEntry) (content : Str)
    (allowedTypes : Option (List Str)) (parentArtifactId : Option Str) :
    Except Str (ProvResult × List IndexEntry) :=
  let pids0 := findProvisionalArtifactIds reg content
  let pids :=
    match allowedTypes with
    | none => pids0
    | some allowed =>
        pids0.filter (fun pid =>
          match parseProvisionalId reg pid with
          | .ok (ty, _) => allowed.contains ty
          | .error _ => false)
  if pids.isEmpty then .ok (⟨[], content, []⟩, entries)
  else processFilteredLoop reg content parentArtifactId pids (entries, [], [], content)

/-! ## Finalization (`ArtifactManager.finalize_provisional_file`) -/

/-- `ArtifactManager.get_version_footer`. -/
def versionFooter : Str := str "\n\n<!-- ReSpecT v0.1.0 -->"

/-- System state: parsed index entries, the provisional draft store and
the document repository (filename → content). -/
structure SysState where
  entries : List IndexEntry
  provFiles : List (Str × Str)
  repoFiles : List (Str × Str)
deriving Repr, DecidableEq

/-- Whole-file write (create or overwrite). -/
def writeFile (files : List (Str × Str)) (name content : Str) :
    List (Str × Str) :=
  if files.any (fun f => f.1 == name) then
    files.map (fun f => if f.1 == name then (name, content) else f)
  else files ++ [(name, content)]

/-- Python `pathlib` stem/suffix split of a plain filename. -/
def splitStemExt (name : Str) : Str × Str :=
  let extLen := (name.reverse.takeWhile (fun c => c ≠ '.')).length
  if extLen = name.length then (name, [])
  else (name.take (name.length - extLen - 1), name.drop (name.length - extLen - 1))

/-- `[a-z0-9]` (the characters kept by the suffix sanitizer). -/
def isLowerAlnum (c : Char) : Bool :=
  ('a' ≤ c && c ≤ 'z') || ('0' ≤ c && c ≤ '9')

/-- `re.sub(r'[^a-z0-9]+', '_', s)`: collapse runs of other characters. -/
def collapseNonAlnum : Bool → Str → Str
  | _, [] => []
  | inRun, c :: cs =>
      if isLowerAlnum c then c :: collapseNonAlnum false cs
      else if inRun then collapseNonAlnum true cs
      else '_' :: collapseNonAlnum true cs

/-- Generic `dropWhile` from the right end. -/
def dropWhileEndP (p : Char → Bool) (s : Str) : Str :=
  (s.reverse.dropWhile p).reverse

/-- The file-name-suffix sanitizer of `_generate_target_filename`:
strip, lowercase, collapse non-alphanumerics to `_`, strip `_`. -/
def sanitizeSuffix (s : Str) : Str :=
  let collapsed := collapseNonAlnum false ((pyStrip s).map Char.toLower)
  dropWhileEndP (fun c => c == '_') (collapsed.dropWhile (fun c => c == '_'))

/-- First mapping entry with a word-bounded occurrence in the stem wins
(`break` after one replacement). -/
def replaceStem : List (Str × Str) → Str → Str
  | [], s => s
  | (pid, newId) :: rest, s =>
      if hasWordMatch pid s then subWord pid newId s else replaceStem rest s

/-- `ArtifactManager._generate_target_filename`. -/
def generateTargetFilename (provName : Str) (mapping : List (Str × Str))
    (suffix : Option Str) : Str :=
  let (stem, ext) := splitStemExt provName
  let stem1 := replaceStem mapping stem
  let stem2 :=
    match suffix with
    | none => stem1
    | some s =>
        let san := sanitizeSuffix s
        if san.isEmpty then stem1 else stem1 ++ '_' :: san
  stem2 ++ ext

/-- `ArtifactTypeManager.validate_provisional_filename`: the stem (minus a
trailing `.md`) must match `^([A-Z]+)-PROVISIONAL\d*$` after uppercasing,
with a valid type; returns the type. -/
def validateProvisionalFilename (reg : TypeRegistry) (filename : Str) :
    Option Str :=
  let nameNoExt :=
    if (str ".md").isSuffixOf filename then filename.take (filename.length - 3)
    else filename
  let u := upper nameNoExt
  let letters := u.takeWhile (fun c => 'A' ≤ c && c ≤ 'Z')
  if letters.isEmpty then none
  else
    match u.drop letters.length with
    | '-' :: rest =>
        if (str "PROVISIONAL").isPrefixOf rest
            && (rest.drop 11).all Char.isDigit then
          if isValidArtifactType reg letters then some letters else none
        else none
    | _ => none

/-- Result record of `finalize_provisional_file`. -/
structure FinalizeResult where
  sourceFilename : Option Str
  target : Option Str
  idMappings : List (Str × Str)
  message : Str
deriving Repr, DecidableEq

/-- `ArtifactManager.finalize_provisional_file`: find the draft, process
the provisional IDs; with an empty mapping return at once without touching
any file; otherwise write the finalized content (rstripped, version footer
appended) under the generated target name, delete the draft, and — when
the draft filename matches the provisional pattern and a final ID of that
type exists — hand the main artifact to the per-type finalize hook.  The
hook invocation is returned as data (`Option (mainType, mainId)`); its
own effects on other artifacts belong to the handler layer. -/
def finalizeProvisionalFile (reg : TypeRegistry) (st : SysState)
    (provisionalFileName : Str) (fileNameSuffix : Option Str) :
    Except Str (FinalizeResult × SysState × Option (Str × Str)) :=
  match st.provFiles.find? (fun f => f.1 == provisionalFileName) with
  | none => .error (str "Provisional file not found")
  | some (fname, content) =>
      let (res, entries') := processProvisionalIds reg st.entries content none
      if res.idMapping.isEmpty then
        .ok (⟨none, none, [], str "No provisional artifact IDs found"⟩, st, none)
      else
        let targetFilename := generateTargetFilename fname res.idMapping fileNameSuffix
        let finalContent := dropEndWs res.content ++ versionFooter
        let repo' := writeFile st.repoFiles targetFilename finalContent
        let prov' := st.provFiles.filter (fun f => !(f.1 == fname))
        let mainArtifactId :=
          match validateProvisionalFilename reg fname with
          | some mainType =>
              (res.idMapping.find? (fun kv =>
                (mainType ++ ['-']).isPrefixOf kv.2)).map (fun kv => kv.2)
          | none => none
        .ok (⟨some fname, mainArtifactId, res.idMapping,
              str "Successfully finalized provisional document"⟩,
             ⟨entries', prov', repo'⟩,
             (match validateProvisionalFilename reg fname with
              | some mainType => mainArtifactId.map (fun mid => (mainType, mid))
              | none => none))

/-! ## Artifact updates (`ArtifactManager.update_artifact`) -/

/-- Outcome record of an update operation (success flag + message). -/
structure UpdateResult where
  success : Bool
  message : Str
deriving Repr, DecidableEq

/-- `ArtifactManager._update_file_artifact`: locate the file by the glob
`<id>_*.md` (first match in traversal order), falling back to `<id>.md`,
and overwrite it. -/
def updateFileArtifact (st : SysState) (artifactId newContent : Str) :
    UpdateResult × SysState :=
  let found :=
    match st.repoFiles.find? (fun f =>
        (artifactId ++ ['_']).isPrefixOf f.1 && (str ".md").isSuffixOf f.1) with
    | some f => some f
    | none => st.repoFiles.find? (fun f => f.1 == artifactId ++ str ".md")
  match found with
  | none => (⟨false, str "No file found for artifact"⟩, st)
  | some f =>
      (⟨true, str "Successfully updated file artifact"⟩,
       { st with repoFiles := writeFile st.repoFiles f.1 newContent })

/-- Index of the `### <id>` heading line in a file's lines, if any. -/
def sectionStartIn (artifactId content : Str) : Option Nat :=
  (splitNl content).findIdx? (fun l =>
    ((str "### ") ++ artifactId).isPrefixOf (pyStrip l))

/-- End of the section starting at line `i`: the next `### ` heading that
is not a heading of the same artifact, or the end of the file. -/
def sectionEnd (artifactId : Str) (lines : List Str) (i : Nat) : Nat :=
  match (lines.drop (i + 1)).findIdx? (fun l =>
      (str "### ").isPrefixOf (pyStrip l)
        && !(((str "### ") ++ artifactId).isPrefixOf (pyStrip l))) with
  | some k => i + 1 + k
  | none => lines.length

/-- `ArtifactManager._update_non_file_artifact`: find the first markdown
file containing the `### <id>` heading, splice the section's line range
`[start, end)` out and put the (newline-rstripped) new content in. -/
def updateNonFileArtifact (st : SysState) (artifactId newContent : Str) :
    UpdateResult × SysState :=
  match st.repoFiles.findSome? (fun f =>
      (sectionStartIn artifactId f.2).map (fun i => (f.1, f.2, i))) with
  | none => (⟨false, str "No artifact section found"⟩, st)
  | some (fname, content, i) =>
      let lines := splitNl content
      let e := sectionEnd artifactId lines i
      let newLines := splitNl (dropWhileEndP (fun c => c == '\n') newContent)
      let updated := joinLines (lines.take i ++ newLines ++ lines.drop e)
      (⟨true, str "Successfully updated non-file artifact"⟩,
       { st with repoFiles := writeFile st.repoFiles fname updated })

/-- `ArtifactManager.update_artifact`: resolve the identifier, fetch the
index entry, derive the type from the ID and *check `can_tool_update`
before any write*; then dispatch on `is_file`, prepending the expected
`### <id>[: <name>]` heading to section content that lacks it. -/
def updateArtifact (reg : TypeRegistry) (st : SysState)
    (identifier newContent : Str) : UpdateResult × SysState :=
  match resolveArtifactIdentifier st.entries identifier with
  | none => (⟨false, str "No artifact found for identifier"⟩, st)
  | some artifactId =>
      match getArtifactById st.entries artifactId with
      | none => (⟨false, str "Artifact not found in index"⟩, st)
      | some info =>
          match getArtifactTypeFromId reg artifactId with
          | .error _ => (⟨false, str "Error updating artifact"⟩, st)
          | .ok artifactType =>
              if !canToolUpdate reg artifactType then
                (⟨false, str "Artifact type '" ++ artifactType
                    ++ str "' does not allow direct tool updates"⟩, st)
              else if info.isFile then
                updateFileArtifact st artifactId newContent
              else
                let headingPrefix := str "### " ++ artifactId
                let prepared :=
                  if headingPrefix.isPrefixOf (newContent.dropWhile isWs) then
                    newContent
                  else
                    (headingPrefix ++
                      (match info.name with
                       | some n => str ": " ++ n
                       | none => []))
                      ++ '\n' :: newContent.dropWhile (fun c => c == '\n')
                updateNonFileArtifact st artifactId prepared

/-! ## Header codec (`artifact_header_manager.py`)

The managed-header schema comes from `artifact_managed_header_items.json`
(configuration shipped with the package); the codec is parametric in it.
Each item has a key, a display label, a kind (`atomic`/`list`) and the set
of artifact types it applies to, in declaration order. -/

/-- One managed-header schema item. -/
structure HeaderItem where
  key : Str
  label : Str
  isList : Bool
  artifactTypes : List Str
deriving Repr, DecidableEq

/-- The managed-header schema, in declaration order. -/
abbrev HeaderConfig := List HeaderItem

/-- Python `label.rstrip(':')`. -/
def rstripColon (l : Str) : Str := dropWhileEndP (fun c => c == ':') l

/-- Backtracking for the compiled header-format pattern
`<pre>(\d+)<mid>(.+)`: try the digit-group length from the maximal run
downwards; `mid` must follow and at least one character must remain for
`(.+)`. -/
def matchFmtLen (mid rest : Str) : Nat → Option Nat
  | 0 => none
  | k + 1 =>
      if mid.isPrefixOf (rest.drop (k + 1))
          && decide (mid.length < (rest.drop (k + 1)).length) then
        some (k + 1)
      else matchFmtLen mid rest k

/-- `re.match` of a header-format template (`pre{id}mid{description}`)
against a line; returns the digit group. -/
def matchHeaderFormat (pre mid line : Str) : Option Str :=
  if pre.isPrefixOf line then
    let rest := line.drop pre.length
    (matchFmtLen mid rest (rest.takeWhile Char.isDigit).length).map
      (fun k => rest.take k)
  else none

/-- Try every registered type's header format, in registry order (the
first matching template wins). -/
def extractFromLine (reg : TypeRegistry) (line : Str) : Option (Str × Str) :=
  reg.findSome? (fun td =>
    match td.headerFormat with
    | none => none
    | some (pre, mid) =>
        (matchHeaderFormat pre mid line).map
          (fun digits => (td.code, td.code ++ str "-" ++ digits)))

/-- `ArtifactHeaderManager.extract_artifact_type_and_id`: match the first
(stripped) line of the stripped content. -/
def extractTypeAndId (reg : TypeRegistry) (content : Str) :
    Option (Str × Str) :=
  extractFromLine reg (pyStrip ((splitNl (pyStrip content)).headD []))

/-- `ArtifactHeaderManager.get_managed_headers_for_type`: the items
applicable to a type, in declaration order. -/
def applicableItems (items : HeaderConfig) (ty : Str) : HeaderConfig :=
  items.filter (fun it => it.artifactTypes.contains ty)

/-- `re.match(r'`([^`]+)`:\s*(.+)', line)` on an already-stripped line:
label between backticks, then `:`, then the (left-stripped, non-empty)
value. -/
def matchBacktick (line : Str) : Option (Str × Str) :=
  match line with
  | '`' :: rest =>
      let label := rest.takeWhile (fun c => c ≠ '`')
      if label.isEmpty then none
      else
        match rest.drop label.length with
        | '`' :: ':' :: rest2 =>
            let v := rest2.dropWhile isWs
            if v.isEmpty then none else some (label, v)
        | _ => none
  | _ => none

/-- Python dict assignment `d[k] = v` on an association list. -/
def dictSet (d : List (Str × Str)) (k v : Str) : List (Str × Str) :=
  if d.any (fun p => p.1 == k) then
    d.map (fun p => if p.1 == k then (k, v) else p)
  else d ++ [(k, v)]

/-- The header-scanning loop of
`ArtifactHeaderManager.parse_managed_headers`: consume blank lines and
managed-header lines (first item with the matching `rstrip(':')`-ed label
wins), stop at the first other line; returns the parsed dictionary and the
number of lines consumed (the body starts right after them). -/
def parseML (app : HeaderConfig) :
    List Str → List (Str × Str) → List (Str × Str) × Nat
  | [], acc => (acc, 0)
  | l :: ls, acc =>
      let line := pyStrip l
      if line.isEmpty then
        let r := parseML app ls acc
        (r.1, r.2 + 1)
      else
        match matchBacktick line with
        | none => (acc, 0)
        | some (label, value) =>
            match app.find? (fun it => rstripColon it.label == label) with
            | none => (acc, 0)
            | some it =>
                let r := parseML app ls (dictSet acc it.key (pyStrip value))
                (r.1, r.2 + 1)

/-- `ArtifactHeaderManager.parse_managed_headers`. -/
def parseManagedHeaders (reg : TypeRegistry) (items : HeaderConfig)
    (content : Str) : Str × List (Str × Str) × Str :=
  let lines := splitNl (pyStrip content)
  let hl := pyStrip (lines.headD [])
  match extractTypeAndId reg content with
  | none => (hl, [], joinLines (lines.drop 1))
  | some (ty, _) =>
      let app := applicableItems items ty
      let r := parseML app (lines.drop 1) []
      (hl, r.1, joinLines (lines.drop (1 + r.2)))

/-- The list-union of `update_managed_header`: keep existing members in
order, append genuinely new ones. -/
def mergeValues (ex nw : List Str) : List Str :=
  nw.foldl (fun acc v => if acc.contains v then acc else acc ++ [v]) ex

/-- The update loop of `ArtifactHeaderManager.update_managed_header`:
skip non-applicable keys; atomic values replace, list values append-merge
comma-separated sets. -/
def applyUpdates (app : HeaderConfig) (d0 : List (Str × Str))
    (U : List (Str × Str)) : List (Str × Str) :=
  U.foldl (fun acc kv =>
    match app.find? (fun it => it.key == kv.1) with
    | none => acc
    | some it =>
        if it.isList then
          match acc.lookup kv.1 with
          | some existing =>
              dictSet acc kv.1 (joinComma (mergeValues
                ((splitComma existing).map pyStrip)
                ((splitComma kv.2).map pyStrip)))
          | none => dictSet acc kv.1 kv.2
        else dictSet acc kv.1 kv.2) d0

/-- One serialized managed-header line `` `<label>`: <value> ``. -/
def serHeaderLine (label v : Str) : Str :=
  '`' :: rstripColon label ++ '`' :: ':' :: ' ' :: v

/-- The value recovered when a serialized header line is parsed back
(strip the line, match, left-strip and strip the value group). -/
def storedVal (v : Str) : Str := pyStrip ((dropEndWs v).dropWhile isWs)

/-- `ArtifactHeaderManager.update_managed_header`: parse, apply the
updates, re-serialize the headers in schema order, and append the body
unchanged (when it is not pure whitespace). -/
def updateManagedHeader (reg : TypeRegistry) (items : HeaderConfig)
    (content : Str) (U : List (Str × Str)) : Except Str Str :=
  let p := parseManagedHeaders reg items content
  if p.1.isEmpty then
    .error (str "Could not parse artifact header from content")
  else
    match extractTypeAndId reg content with
    | none => .error (str "Could not determine artifact type from content")
    | some (ty, _) =>
        let app := applicableItems items ty
        let updated := applyUpdates app p.2.1 U
        let resultLines := p.1 :: app.filterMap (fun it =>
          (updated.lookup it.key).map (fun v => serHeaderLine it.label v))
        let withBody :=
          if (pyStrip p.2.2).isEmpty then resultLines
          else resultLines ++ [p.2.2]
        .ok (joinLines withBody)

end Respect

namespace Respect

/-! ## Basic arithmetic facts about the decimal rendering -/

theorem digitChar_toNat (d : Nat) (h : d < 10) : (digitChar d).toNat = 48 + d := by
  interval_cases d <;> rfl

theorem digitsVal_append (s : Str) (c : Char) :
    digitsVal (s ++ [c]) = (digitsVal s) * 10 + (c.toNat - 48) := by
  simp [digitsVal, List.foldl_append]

theorem digitsVal_natToDigitsAux (fuel n : Nat) (h : n < fuel) :
    digitsVal (natToDigitsAux fuel n) = n := by
  induction fuel generalizing n with
  | zero => omega
  | succ fuel ih =>
      rw [natToDigitsAux]
      by_cases h10 : n < 10
      · simp [h10, digitsVal, digitChar_toNat n h10]
      · rw [if_neg h10, digitsVal_append]
        have hdiv : n / 10 < n := Nat.div_lt_self (by omega) (by omega)
        rw [ih (n / 10) (by omega), digitChar_toNat (n % 10) (Nat.mod_lt _ (by omega))]
        omega

theorem digitsVal_natToDigits (n : Nat) : digitsVal (natToDigits n) = n :=
  digitsVal_natToDigitsAux (n + 1) n (by omega)

theorem natToDigitsAux_all_digits (fuel n : Nat) (h : n < fuel) :
    (natToDigitsAux fuel n).all Char.isDigit = true := by
  induction fuel generalizing n with
  | zero => omega
  | succ fuel ih =>
      rw [natToDigitsAux]
      by_cases h10 : n < 10
      · rw [if_pos h10]
        simp only [List.all_cons, List.all_nil, Bool.and_true]
        interval_cases n <;> rfl
      · rw [if_neg h10, List.all_append]
        have hdiv : n / 10 < n := Nat.div_lt_self (by omega) (by omega)
        refine (Bool.and_eq_true _ _).mpr ⟨ih (n / 10) (by omega), ?_⟩
        have h9 : n % 10 ≤ 9 := by omega
        simp only [List.all_cons, List.all_nil, Bool.and_true]
        interval_cases h' : n % 10 <;> rfl

theorem natToDigits_all_digits (n : Nat) :
    (natToDigits n).all Char.isDigit = true :=
  natToDigitsAux_all_digits (n + 1) n (by omega)

/-! ## C1: doc_id allocation is gap-free -/

/-- The doc ids of the index, as numbers. -/
def docIdVals (entries : List IndexEntry) : List Nat :=
  entries.map (fun e => digitsVal e.docId)

/-- Allocation invariant: the doc ids are exactly `1, …, length`. -/
def AllocInv (entries : List IndexEntry) : Prop :=
  docIdVals entries = (List.range entries.length).map (· + 1)

theorem foldl_max_range (k : Nat) :
    List.foldl max 0 ((List.range k).map (· + 1)) = k := by
  induction k with
  | zero => rfl
  | succ k ih =>
      rw [List.range_succ, List.map_append, List.foldl_append, ih]
      simp

theorem getNextDocId_of_inv {entries : List IndexEntry}
    (h : AllocInv entries) : getNextDocId entries = entries.length + 1 := by
  unfold getNextDocId
  by_cases he : entries.isEmpty
  · simp only [he, if_pos]
    rw [List.isEmpty_iff] at he
    simp [he]
  · simp only [he, if_neg, Bool.false_eq_true, not_false_iff]
    have : entries.foldl (fun m e => max m (digitsVal e.docId)) 0
        = List.foldl max 0 (docIdVals entries) := by
      rw [docIdVals, List.foldl_map]
    rw [this, h, foldl_max_range]

theorem allocInv_append {entries : List IndexEntry} (e : IndexEntry)
    (h : AllocInv entries)
    (hd : e.docId = natToDigits (getNextDocId entries)) :
    AllocInv (entries ++ [e]) := by
  unfold AllocInv docIdVals at *
  rw [List.map_append, h, List.length_append, List.length_singleton,
    List.range_succ, List.map_append]
  simp [hd, digitsVal_natToDigits, getNextDocId_of_inv h]

theorem runAdds_preserves_inv (reqs : List AddReq) (entries : List IndexEntry)
    (h : AllocInv entries) : AllocInv (runAdds reqs entries) := by
  induction reqs generalizing entries with
  | nil => exact h
  | cons r rs ih =>
      unfold runAdds addArtifact
      cases hfind : getArtifactById entries r.artifactId with
      | some e => exact ih entries h
      | none => exact ih _ (allocInv_append _ h rfl)

/-- **C1.** Starting from an empty index, any sequence of `add_artifact`
calls assigns pairwise distinct, gap-free doc ids `1, 2, 3, …` to the
successful calls, and afterwards `get_next_doc_id` returns
`max(doc_id) + 1`, i.e. (number of entries) + 1; on an empty index it
returns `1`. -/
theorem addArtifact_docIds_gap_free (reqs : List AddReq) :
    docIdVals (runAdds reqs []) =
      (List.range (runAdds reqs []).length).map (· + 1) ∧
    (docIdVals (runAdds reqs [])).Nodup ∧
    getNextDocId (runAdds reqs []) = (runAdds reqs []).length + 1 ∧
    getNextDocId [] = 1 := by
  have hinv : AllocInv (runAdds reqs []) := by
    apply runAdds_preserves_inv
    rfl
  refine ⟨hinv, ?_, getNextDocId_of_inv hinv, rfl⟩
  rw [hinv]
  exact (List.nodup_range _).map (fun a b => by omega)

/-! ## C7: identifier resolution -/

theorem findSome?_guard {α β : Type} (p : α → Bool) (g : α → β) (l : List α) :
    l.findSome? (fun e => if p e then some (g e) else none)
      = (l.find? p).map g := by
  induction l with
  | nil => rfl
  | cons a as ih =>
      by_cases h : p a <;> simp [List.findSome?_cons, List.find?_cons, h, ih]

theorem findSome?_const {α β : Type} (p : α → Bool) (b : β) (l : List α) :
    l.findSome? (fun e => if p e then some b else none)
      = if l.any p then some b else none := by
  induction l with
  | nil => rfl
  | cons a as ih =>
      by_cases h : p a <;> simp [List.findSome?_cons, List.any_cons, h, ih]

/-- A small concrete index used to instantiate the claims' examples. -/
def sampleIndex : List IndexEntry :=
  [{ docId := str "3", artifactId := str "PRD-3" },
   { docId := str "7", artifactId := str "REQ-7" }]

/-- **C7.** `resolve_artifact_identifier` maps a purely numeric token to
the `artifact_id` of the first index entry whose stored `doc_id` string
equals the token, and any other token to its uppercased form exactly when
an entry with that `artifact_id` exists (`none` otherwise); in particular
on an index holding `(doc_id 7, REQ-7)`, both `"7"` and `"req-7"` resolve
to `"REQ-7"`. -/
theorem resolveArtifactIdentifier_spec :
    (∀ (entries : List IndexEntry) (token : Str), isDigitStr token = true →
        resolveArtifactIdentifier entries token
          = (entries.find? (fun e => e.docId == token)).map IndexEntry.artifactId) ∧
    (∀ (entries : List IndexEntry) (token : Str), isDigitStr token = false →
        resolveArtifactIdentifier entries token
          = if entries.any (fun e => e.artifactId == upper token)
            then some (upper token) else none) ∧
    resolveArtifactIdentifier sampleIndex (str "7") = some (str "REQ-7") ∧
    resolveArtifactIdentifier sampleIndex (str "req-7") = some (str "REQ-7") := by
  refine ⟨?_, ?_, by decide, by decide⟩
  · intro entries token h
    unfold resolveArtifactIdentifier
    rw [if_pos h]
    exact findSome?_guard _ _ _
  · intro entries token h
    unfold resolveArtifactIdentifier
    rw [if_neg (by simp [h])]
    exact findSome?_const _ _ _

/-- Witness for C7: the two general clauses applied at the example index. -/
theorem resolveArtifactIdentifier_spec_witness :
    resolveArtifactIdentifier sampleIndex (str "7")
        = ((sampleIndex.find? (fun e => e.docId == str "7")).map
            IndexEntry.artifactId) ∧
    resolveArtifactIdentifier sampleIndex (str "zz")
        = (if sampleIndex.any (fun e => e.artifactId == upper (str "zz"))
           then some (upper (str "zz")) else none) :=
  ⟨resolveArtifactIdentifier_spec.1 sampleIndex (str "7") (by decide),
   resolveArtifactIdentifier_spec.2.1 sampleIndex (str "zz") (by decide)⟩

/-! ## C10: allocated artifact IDs carry the doc id as numeric suffix -/

/-- **C10.** Every artifact ID allocated through `get_artifact_id` has the
form `TYPE-N` where `N` is exactly the `doc_id` string stored in the index
entry appended by the very same call (the ID is built from
`get_next_doc_id` before `add_artifact` recomputes the same value), so for
freshly allocated artifacts the numeric suffix of `artifact_id` coincides
with `doc_id`. -/
theorem getArtifactId_suffix_eq_docId
    (reg : TypeRegistry) (entries : List IndexEntry) (ty : Str)
    (name : Option Str) (isFile : Bool) (parent : Option Str)
    (aid : Str) (es' : List IndexEntry)
    (h : getArtifactId reg entries ty name isFile parent = .ok (aid, es')) :
    ∃ e tyU, es' = entries ++ [e] ∧ e.artifactId = aid ∧
      aid = tyU ++ str "-" ++ e.docId ∧
      e.docId = natToDigits (getNextDocId entries) ∧
      normalizeArtifactType reg ty = some tyU := by
  unfold getArtifactId at h
  cases hn : normalizeArtifactType reg ty with
  | none => rw [hn] at h; exact absurd h (by simp)
  | some tyU =>
      rw [hn] at h
      simp only at h
      unfold addArtifact at h
      cases hf : getArtifactById entries
          (tyU ++ str "-" ++ natToDigits (getNextDocId entries)) with
      | some e => rw [hf] at h; exact absurd h (by simp)
      | none =>
          rw [hf] at h
          simp only [Except.ok.injEq, Prod.mk.injEq] at h
          obtain ⟨haid, hes⟩ := h
          exact ⟨_, tyU, hes.symm, by simp [haid], by simp [haid], rfl, rfl⟩

/-- A one-type registry used for witnesses. -/
def sampleReg : TypeRegistry :=
  [{ code := str "REQ", isFile := false, canToolUpdate := true,
     headerFormat := some (str "### REQ-", str ": ") }]

/-- The index entries produced by the witness allocation below. -/
def sampleAllocEntries : List IndexEntry :=
  [{ docId := str "1", artifactId := str "REQ-1", name := none,
     status := none, isFile := false, parent := none }]

/-- Witness for C10: a concrete allocation on the empty index. -/
theorem getArtifactId_suffix_eq_docId_witness :
    ∃ e tyU, sampleAllocEntries = ([] : List IndexEntry) ++ [e] ∧
      e.artifactId = str "REQ-1" ∧
      str "REQ-1" = tyU ++ str "-" ++ e.docId ∧
      e.docId = natToDigits (getNextDocId []) ∧
      normalizeArtifactType sampleReg (str "req") = some tyU :=
  getArtifactId_suffix_eq_docId sampleReg [] (str "req") none false none
    (str "REQ-1") sampleAllocEntries (by rfl)

/-! ## C8: `mark_step_done` (`TASKHandler.mark_step_done`)

The handler fetches the artifact content, looks for the first line matching
`^(\[ \]) (<step>) (.+)$` and rewrites it to `[x] <step> <desc>`; if no
line matches it fails ("not found or already marked as done"). -/

/-- Match of one line against `^(\[ \]) (<step>) (.+)$`
(the step number is regex-escaped in the source, i.e. literal);
returns the description group on success. -/
def stepLineMatch (step line : Str) : Option Str :=
  let pre := str "[ ] " ++ step ++ [' ']
  if pre.isPrefixOf line then
    let desc := line.drop pre.length
    if desc.isEmpty then none else some desc
  else none

/-- The line-rewriting loop of `TASKHandler.mark_step_done`: flip the first
matching line, `none` when no line matches. -/
def markStepDoneLines (step : Str) : List Str → Option (List Str)
  | [] => none
  | l :: ls =>
      match stepLineMatch step l with
      | some desc => some ((str "[x] " ++ step ++ [' '] ++ desc) :: ls)
      | none => (markStepDoneLines step ls).map (l :: ·)

/-- `TASKHandler.mark_step_done` at the content level: split into lines,
flip the first matching step line, re-join; `none` models the
`StepNotFound` failure result. -/
def markStepDone (content step : Str) : Option Str :=
  (markStepDoneLines step (splitNl content)).map joinLines

theorem stepLineMatch_flipped (step rest : Str) :
    stepLineMatch step (str "[x] " ++ step ++ [' '] ++ rest) = none := rfl

theorem markStepDoneLines_of_no_match (step : Str) (lines : List Str)
    (h : ∀ l ∈ lines, stepLineMatch step l = none) :
    markStepDoneLines step lines = none := by
  induction lines with
  | nil => rfl
  | cons l ls ih =>
      unfold markStepDoneLines
      rw [h l (by simp), ih (fun x hx => h x (by simp [hx]))]
      rfl

theorem markStepDoneLines_second_fails (step : Str) (lines lines' : List Str)
    (hcount : lines.countP (fun l => (stepLineMatch step l).isSome) ≤ 1)
    (h : markStepDoneLines step lines = some lines') :
    markStepDoneLines step lines' = none := by
  induction lines generalizing lines' with
  | nil => simp [markStepDoneLines] at h
  | cons l ls ih =>
      unfold markStepDoneLines at h
      cases hm : stepLineMatch step l with
      | some desc =>
          rw [hm] at h
          simp only [Option.some.injEq] at h
          subst h
          have hz : ls.countP (fun l => (stepLineMatch step l).isSome) = 0 := by
            rw [List.countP_cons, hm] at hcount
            simp only [Option.isSome_some, if_true] at hcount
            omega
          have hnone : ∀ x ∈ ls, stepLineMatch step x = none := by
            intro x hx
            have := (List.countP_eq_zero.mp hz) x hx
            simpa using this
          unfold markStepDoneLines
          rw [stepLineMatch_flipped step desc]
          rw [markStepDoneLines_of_no_match step ls hnone]
          rfl
      | none =>
          rw [hm] at h
          cases hr : markStepDoneLines step ls with
          | none => rw [hr] at h; exact absurd h (by simp)
          | some rest' =>
              rw [hr] at h
              simp only [Option.map_some', Option.some.injEq] at h
              subst h
              have hc : ls.countP (fun l => (stepLineMatch step l).isSome) ≤ 1 := by
                rw [List.countP_cons, hm] at hcount
                simpa using hcount
              unfold markStepDoneLines
              rw [hm, ih rest' hc hr]
              rfl

/-- The example TASK content of the claim. -/
def sampleTaskContent : Str :=
  str "### TASK-3: T\n[ ] 10.1 Do the thing\n[ ] 10.2 Other"

/-- The same content after marking step 10.1 done. -/
def sampleTaskContentDone : Str :=
  str "### TASK-3: T\n[x] 10.1 Do the thing\n[ ] 10.2 Other"

/-- **C8.** `mark_step_done` on content containing `"[ ] 10.1 Do the thing"`
with step `"10.1"` rewrites exactly that line to `"[x] 10.1 Do the thing"`;
a second call on the result fails with the step-not-found outcome, and the
call fails whenever no line matches `[ ] <step> <desc>`. -/
theorem markStepDone_spec :
    markStepDone sampleTaskContent (str "10.1") = some sampleTaskContentDone ∧
    markStepDone sampleTaskContentDone (str "10.1") = none ∧
    (∀ (content step : Str),
       (∀ l ∈ splitNl content, stepLineMatch step l = none) →
       markStepDone content step = none) ∧
    (∀ (step : Str) (lines lines' : List Str),
       lines.countP (fun l => (stepLineMatch step l).isSome) ≤ 1 →
       markStepDoneLines step lines = some lines' →
       markStepDoneLines step lines' = none) := by
  refine ⟨by decide, by decide, ?_, markStepDoneLines_second_fails⟩
  intro content step h
  unfold markStepDone
  rw [markStepDoneLines_of_no_match step _ h]
  rfl

/-- Witness for C8: the general clauses applied at the claim's example. -/
theorem markStepDone_spec_witness :
    markStepDone sampleTaskContent (str "99.9") = none ∧
    markStepDoneLines (str "10.1") (splitNl sampleTaskContentDone) = none := by
  constructor
  · exact markStepDone_spec.2.2.1 sampleTaskContent (str "99.9") (by decide)
  · exact markStepDone_spec.2.2.2 (str "10.1") (splitNl sampleTaskContent)
      (splitNl sampleTaskContentDone) (by decide) (by decide)

/-! ## C3: covering-test status propagation
(`UACCHandler._update_test_status_in_list`)

When a UACC/SACC status changes, each REQ whose `COVERING_TESTS` value
mentions the artifact gets the list rewritten by
`_update_test_status_in_list`: the value is split on commas, each entry is
stripped, entries `test.startswith(artifact_id)` get their trailing
parenthesised annotation replaced by `(<status>)`, and the entries are
re-joined with commas. -/

/-- `re.sub(r'\s*\([^)]*\)$', '', test)`: remove a trailing parenthesised
group (whose interior contains no `)`), together with the whitespace
immediately before it; leave the string unchanged when no such group ends
the string. -/
def stripStatusAnnotation (t : Str) : Str :=
  match t.reverse with
  | ')' :: restRev =>
      let runRev := restRev.takeWhile (fun c => c ≠ ')')
      if runRev.any (fun c => c == '(') then
        let keptRun := runRev.reverse.takeWhile (fun c => c ≠ '(')
        let pre := t.take (t.length - 1 - runRev.length)
        dropEndWs (pre ++ keptRun)
      else t
  | _ => t

/-- `UACCHandler._update_test_status_in_list`. -/
def updateTestStatusInList (coveringTests artifactId status : Str) : Str :=
  let tests := (splitComma coveringTests).map pyStrip
  joinComma (tests.map (fun t =>
    if artifactId.isPrefixOf t then
      stripStatusAnnotation t ++ str " (" ++ status ++ [')']
    else t))

theorem takeWhile_append_all {p : Char → Bool} {l₁ : Str} (l₂ : Str)
    (h : ∀ c ∈ l₁, p c = true) :
    (l₁ ++ l₂).takeWhile p = l₁ ++ l₂.takeWhile p := by
  induction l₁ with
  | nil => rfl
  | cons a l ih =>
      simp only [List.cons_append, List.takeWhile_cons, h a (by simp)]
      simp [ih (fun c hc => h c (by simp [hc]))]

theorem isPrefixOf_append_self (l t : Str) : l.isPrefixOf (l ++ t) = true := by
  induction l with
  | nil => simp [List.isPrefixOf]
  | cons a as ih => simp [List.isPrefixOf, ih]

/-- **C3 counterexample.** Updating `UACC-17` to `ACTIVE` in the list
`"UACC-17 (NEW),UACC-171 (NEW)"` also rewrites the `UACC-171` entry
(`test.startswith(artifact_id)` is a string-prefix test), contradicting
the claim that entries of other test artifacts are left unchanged. -/
theorem updateTestStatusInList_prefix_collision :
    updateTestStatusInList (str "UACC-17 (NEW),UACC-171 (NEW)")
        (str "UACC-17") (str "ACTIVE")
      = str "UACC-17 (ACTIVE),UACC-171 (ACTIVE)" ∧
    updateTestStatusInList (str "UACC-17 (NEW),UACC-171 (NEW)")
        (str "UACC-17") (str "ACTIVE")
      ≠ str "UACC-17 (ACTIVE),UACC-171 (NEW)" := by
  constructor
  · decide
  · decide

theorem stripStatusAnnotation_append (aid old : Str)
    (haid : ∀ c ∈ aid, c ≠ '(' ∧ c ≠ ')')
    (haidEnd : dropEndWs aid = aid)
    (hold : ∀ c ∈ old, c ≠ ')') :
    stripStatusAnnotation (aid ++ str " (" ++ old ++ [')']) = aid := by
  have hsep : str " (" = [' ', '('] := rfl
  have hrev : (aid ++ str " (" ++ old ++ [')']).reverse
      = ')' :: (old.reverse ++ ('(' :: ' ' :: aid.reverse)) := by
    rw [hsep]; simp
  unfold stripStatusAnnotation
  rw [hrev]
  simp only
  have hrun : (old.reverse ++ ('(' :: ' ' :: aid.reverse)).takeWhile
      (fun c => c ≠ ')')
      = old.reverse ++ ('(' :: ' ' :: aid.reverse) := by
    refine List.takeWhile_eq_self_iff.mpr ?_
    intro c hc
    have hc' : c ≠ ')' := by
      rcases List.mem_append.mp hc with h | h
      · exact hold c (List.mem_reverse.mp h)
      · simp only [List.mem_cons, List.mem_reverse] at h
        rcases h with rfl | rfl | h
        · decide
        · decide
        · exact (haid c h).2
    simp [hc']
  rw [hrun]
  have hany : (old.reverse ++ ('(' :: ' ' :: aid.reverse)).any
      (fun c => c == '(') = true := by
    simp
  rw [if_pos hany]
  have hkept : (old.reverse ++ ('(' :: ' ' :: aid.reverse)).reverse.takeWhile
      (fun c => c ≠ '(')
      = aid ++ [' '] := by
    have hr : (old.reverse ++ ('(' :: ' ' :: aid.reverse)).reverse
        = (aid ++ [' ']) ++ ('(' :: old) := by simp
    rw [hr, takeWhile_append_all _ (by
      intro c hc
      rcases List.mem_append.mp hc with h | h
      · simp [(haid c h).1]
      · simp at h; simp [h])]
    simp [List.takeWhile_cons]
  rw [hkept]
  have hlen : (aid ++ str " (" ++ old ++ [')']).length - 1
      - (old.reverse ++ ('(' :: ' ' :: aid.reverse)).length = 0 := by
    rw [hsep]; simp; omega
  rw [hlen, List.take_zero, List.nil_append]
  unfold dropEndWs
  rw [List.reverse_append, List.reverse_singleton, List.singleton_append,
    List.dropWhile_cons]
  simp only [isWs, Char.isWhitespace]
  norm_num
  unfold dropEndWs at haidEnd
  have hnr : aid.reverse.dropWhile isWs = aid.reverse := by
    have := congrArg List.reverse haidEnd
    simpa using this
  simp only [isWs] at hnr
  rw [hnr, List.reverse_reverse]

/-- **C3 (amended).** The covering-test rewrite splits the list on commas,
strips each entry, rewrites *every entry whose text begins with the
artifact's ID* — not only the exact entry, so an entry such as `UACC-171`
is also rewritten when `UACC-17` is updated — by replacing its trailing
parenthesised annotation with `(<status>)`, and leaves every entry not
beginning with the artifact ID unchanged; an entry `<aid> (<old>)`
becomes exactly `<aid> (<status>)`. -/
theorem updateTestStatusInList_amended :
    (∀ (ts : List Str) (aid status : Str),
       ts ≠ [] →
       (∀ t ∈ ts, pyStrip t = t ∧ ∀ c ∈ t, c ≠ ',') →
       updateTestStatusInList (joinComma ts) aid status
         = joinComma (ts.map (fun t =>
             if aid.isPrefixOf t then
               stripStatusAnnotation t ++ str " (" ++ status ++ [')']
             else t))) ∧
    (∀ (aid old : Str),
       (∀ c ∈ aid, c ≠ '(' ∧ c ≠ ')') →
       dropEndWs aid = aid →
       (∀ c ∈ old, c ≠ ')') →
       stripStatusAnnotation (aid ++ str " (" ++ old ++ [')']) = aid ∧
       aid.isPrefixOf (aid ++ str " (" ++ old ++ [')']) = true) := by
  constructor
  · intro ts aid status hne hts
    unfold updateTestStatusInList joinComma splitComma
    rw [List.splitOn_intercalate ts ',' (by
      intro l hl hc
      exact (hts l hl).2 ',' hc rfl) hne]
    have hmap : ts.map pyStrip = ts := by
      rw [List.map_congr_left (fun t ht => (hts t ht).1)]
      simp
    rw [hmap]
  · intro aid old haid haidEnd hold
    refine ⟨stripStatusAnnotation_append aid old haid haidEnd hold, ?_⟩
    rw [List.append_assoc, List.append_assoc]
    exact isPrefixOf_append_self _ _

/-- Witness for C3's amended theorem: both clauses at concrete inputs. -/
theorem updateTestStatusInList_amended_witness :
    (updateTestStatusInList
        (joinComma [str "UACC-17 (NEW)", str "SACC-2"]) (str "UACC-17")
        (str "ACTIVE")
      = joinComma ([str "UACC-17 (NEW)", str "SACC-2"].map (fun t =>
          if (str "UACC-17").isPrefixOf t then
            stripStatusAnnotation t ++ str " (" ++ str "ACTIVE" ++ [')']
          else t))) ∧
    stripStatusAnnotation (str "UACC-17" ++ str " (" ++ str "NEW" ++ [')'])
      = str "UACC-17" := by
  constructor
  · exact updateTestStatusInList_amended.1 [str "UACC-17 (NEW)", str "SACC-2"]
      (str "UACC-17") (str "ACTIVE") (by decide) (by decide)
  · exact (updateTestStatusInList_amended.2 (str "UACC-17") (str "NEW")
      (by decide) (by decide) (by decide)).1

/-! ## C9: finalization with zero provisional IDs is a no-op -/

/-- **C9.** When the draft's content contains no provisional-ID token,
`finalize_provisional_file` is not an error: it returns the empty mapping
result and performs no file operation at all — the state (index entries,
draft store, repository) is returned unchanged and no handler is invoked. -/
theorem finalize_no_provisional_ids_is_noop
    (reg : TypeRegistry) (st : SysState) (name : Str) (suffix : Option Str)
    (fname content : Str)
    (hfind : st.provFiles.find? (fun f => f.1 == name) = some (fname, content))
    (hempty : findProvisionalArtifactIds reg content = []) :
    finalizeProvisionalFile reg st name suffix
      = .ok (⟨none, none, [], str "No provisional artifact IDs found"⟩, st, none) := by
  unfold finalizeProvisionalFile
  rw [hfind]
  have hp : processProvisionalIds reg st.entries content none
      = (⟨[], content, []⟩, st.entries) := by
    unfold processProvisionalIds
    rw [hempty]
    rfl
  simp [hp]

/-- A draft store holding one provisional-ID-free draft. -/
def noopState : SysState :=
  { entries := sampleIndex, provFiles := [(str "d.md", str "# hello world")],
    repoFiles := [] }

/-- Witness for C9: the no-op theorem at a concrete state. -/
theorem finalize_no_provisional_ids_is_noop_witness :
    finalizeProvisionalFile sampleReg noopState (str "d.md") none
      = .ok (⟨none, none, [], str "No provisional artifact IDs found"⟩,
             noopState, none) :=
  finalize_no_provisional_ids_is_noop sampleReg noopState (str "d.md") none
    (str "d.md") (str "# hello world") (by decide) (by decide)

/-! ## C2: step-number references during finalization -/

/-- A two-type registry (a file-level plan type and a nested task type). -/
def sampleReg2 : TypeRegistry :=
  [{ code := str "TASKPRD", isFile := true },
   { code := str "TASK", isFile := false }]

/-- A draft with a main artifact, a nested artifact and a step reference
`PROVISIONAL2.1` to the nested artifact's provisional number. -/
def cexContent : Str :=
  str "# TASKPRD-PROVISIONAL1: Plan\n### TASK-PROVISIONAL2: Sub\n[ ] PROVISIONAL2.1 Do it"

/-- The system state holding that draft (under a name that does not match
the provisional filename pattern, so no post-finalization hook fires). -/
def cexState : SysState :=
  { entries := [], provFiles := [(str "draft_plan.md", cexContent)],
    repoFiles := [] }

/-- Index entries created by finalizing the draft. -/
def cexEntriesAfter : List IndexEntry :=
  [{ docId := str "1", artifactId := str "TASKPRD-1", name := some (str "Plan"),
     status := none, isFile := true, parent := none },
   { docId := str "2", artifactId := str "TASK-2", name := some (str "Sub"),
     status := none, isFile := false, parent := some (str "TASKPRD-1") }]

/-- The finalized file content actually written. -/
def cexFinalContent : Str :=
  str "# TASKPRD-1: Plan\n### TASK-2: Sub\n[ ] PROVISIONAL2.1 Do it\n\n<!-- ReSpecT v0.1.0 -->"

/-- **C2 counterexample.** Finalizing the draft allocates
`TASK-PROVISIONAL2 ↦ TASK-2`, yet the written content still contains the
step reference `PROVISIONAL2.1` verbatim — it has not been rewritten to
`2.1` as the claim states (`_process_provisional_ids`, the routine used by
`finalize_provisional_file`, performs no step-number rewriting). -/
theorem finalize_step_reference_counterexample :
    finalizeProvisionalFile sampleReg2 cexState (str "draft_plan.md") none
      = .ok (⟨some (str "draft_plan.md"), none,
             [(str "TASKPRD-PROVISIONAL1", str "TASKPRD-1"),
              (str "TASK-PROVISIONAL2", str "TASK-2")],
             str "Successfully finalized provisional document"⟩,
            ⟨cexEntriesAfter, [], [(str "draft_plan.md", cexFinalContent)]⟩,
            none) ∧
    strIn (str "PROVISIONAL2.1") cexFinalContent = true ∧
    strIn (str "[ ] 2.1 Do it") cexFinalContent = false := by
  refine ⟨by rfl, by decide, by decide⟩

/-- The registry and draft used for the amended-claim computation. -/
def sampleReg3 : TypeRegistry := [{ code := str "SACC", isFile := false }]

/-- Content holding one provisional nested artifact and a step reference. -/
def stepContent : Str :=
  str "### SACC-PROVISIONAL7: T\n[ ] PROVISIONAL7.1 check"

/-- Index entry created by the filtered registration run. -/
def stepEntriesAfter : List IndexEntry :=
  [{ docId := str "1", artifactId := str "SACC-1", name := some (str "T"),
     status := none, isFile := false, parent := some (str "REQ-1") }]

/-- **C2 (amended).** During finalization every *whole-word occurrence* of
an allocated provisional token is replaced with its final ID, but
step-number references `PROVISIONALk.m` are **not** rewritten by
`finalize_provisional_file`'s `_process_provisional_ids`; the
`PROVISIONALk.m → <finalNumber>.m` rewriting is performed only by
`_process_provisional_ids_filtered` (the routine behind
`register_provisional_ids`). -/
theorem provisional_step_rewrite_amended :
    processProvisionalIdsFiltered sampleReg3 [] stepContent none
        (some (str "REQ-1"))
      = .ok (⟨[(str "SACC-PROVISIONAL7", str "SACC-1")],
              str "### SACC-1: T\n[ ] 1.1 check",
              [(str "SACC-1", str "T")]⟩, stepEntriesAfter) ∧
    (processProvisionalIds sampleReg3 [] stepContent none).1.content
      = str "### SACC-1: T\n[ ] PROVISIONAL7.1 check" ∧
    (processProvisionalIds sampleReg3 [] stepContent none).1.idMapping
      = [(str "SACC-PROVISIONAL7", str "SACC-1")] := by
  refine ⟨by rfl, by decide, by decide⟩

/-! ## C4: `update_artifact` is rejected for non-updatable types -/

theorem findSome?_some_mem {α β : Type} {f : α → Option β} {l : List α}
    {b : β} (h : l.findSome? f = some b) : ∃ a ∈ l, f a = some b := by
  induction l with
  | nil => simp [List.findSome?] at h
  | cons x xs ih =>
      cases hx : f x with
      | some y =>
          simp only [List.findSome?_cons, hx] at h
          exact ⟨x, by simp, by rw [hx, h]⟩
      | none =>
          simp only [List.findSome?_cons, hx] at h
          obtain ⟨a, ha, hfa⟩ := ih h
          exact ⟨a, by simp [ha], hfa⟩

theorem resolve_some_getById {entries : List IndexEntry}
    {identifier aid : Str}
    (h : resolveArtifactIdentifier entries identifier = some aid) :
    ∃ info, getArtifactById entries aid = some info := by
  have hmem : ∃ e ∈ entries, upper e.artifactId == upper aid := by
    unfold resolveArtifactIdentifier at h
    by_cases hd : isDigitStr identifier
    · rw [if_pos hd] at h
      obtain ⟨e, he, hfe⟩ := findSome?_some_mem h
      by_cases hdoc : e.docId == identifier
      · rw [if_pos hdoc] at hfe
        simp only [Option.some.injEq] at hfe
        exact ⟨e, he, by rw [hfe]; simp⟩
      · rw [if_neg hdoc] at hfe
        exact absurd hfe (by simp)
    · rw [if_neg hd] at h
      obtain ⟨e, he, hfe⟩ := findSome?_some_mem h
      by_cases hid : e.artifactId == upper identifier
      · rw [if_pos hid] at hfe
        simp only [Option.some.injEq] at hfe
        have hea : e.artifactId = upper identifier := by simpa using hid
        refine ⟨e, he, ?_⟩
        rw [hea, hfe]
        simp
      · rw [if_neg hid] at hfe
        exact absurd hfe (by simp)
  obtain ⟨e, he, hpred⟩ := hmem
  unfold getArtifactById
  cases hfind : entries.find? (fun x => upper x.artifactId == upper aid) with
  | some info => exact ⟨info, rfl⟩
  | none =>
      exact absurd hpred (by
        have := List.find?_eq_none.mp hfind e he
        simpa using this)

/-- **C4.** For an artifact whose type reports `can_tool_update = false`,
`update_artifact` returns the `UpdateNotAllowed` failure and leaves the
whole state — every file and the index — unmodified: the guard runs
before any write. -/
theorem updateArtifact_not_allowed
    (reg : TypeRegistry) (st : SysState) (identifier newContent aid ty : Str)
    (hres : resolveArtifactIdentifier st.entries identifier = some aid)
    (hty : getArtifactTypeFromId reg aid = .ok ty)
    (hcan : canToolUpdate reg ty = false) :
    updateArtifact reg st identifier newContent
      = (⟨false, str "Artifact type '" ++ ty
            ++ str "' does not allow direct tool updates"⟩, st) := by
  obtain ⟨info, hinfo⟩ := resolve_some_getById hres
  unfold updateArtifact
  simp only [hres, hinfo, hty, hcan, Bool.not_false, if_true]

/-- A registry whose only type forbids tool updates. -/
def sampleRegRO : TypeRegistry :=
  [{ code := str "PRD", isFile := true, canToolUpdate := false,
     headerFormat := some (str "# PRD-", str ": ") }]

/-- A state with one PRD on file. -/
def roState : SysState :=
  { entries := [{ docId := str "1", artifactId := str "PRD-1" }],
    provFiles := [],
    repoFiles := [(str "PRD-1.md", str "# PRD-1: Old")] }

/-- Witness for C4: the concrete rejected update. -/
theorem updateArtifact_not_allowed_witness :
    updateArtifact sampleRegRO roState (str "PRD-1") (str "new stuff")
      = (⟨false, str "Artifact type '" ++ str "PRD"
            ++ str "' does not allow direct tool updates"⟩, roState) :=
  updateArtifact_not_allowed sampleRegRO roState (str "PRD-1")
    (str "new stuff") (str "PRD-1") (str "PRD") (by decide) (by rfl) (by decide)

/-! ## C5: list-field updates are an order-preserving set union -/

theorem mergeValues_cons (ex nw : List Str) (v : Str) :
    mergeValues ex (v :: nw)
      = mergeValues (if ex.contains v then ex else ex ++ [v]) nw := by
  unfold mergeValues
  by_cases h : ex.contains v <;> simp [h]

theorem mergeValues_prefix (ex nw : List Str) : ex <+: mergeValues ex nw := by
  induction nw generalizing ex with
  | nil => exact List.prefix_rfl
  | cons v nw ih =>
      rw [mergeValues_cons]
      by_cases h : ex.contains v
      · rw [if_pos h]; exact ih ex
      · rw [if_neg h]
        exact List.IsPrefix.trans ⟨[v], rfl⟩ (ih (ex ++ [v]))

theorem mergeValues_mem (ex nw : List Str) (x : Str) :
    x ∈ mergeValues ex nw ↔ x ∈ ex ∨ x ∈ nw := by
  induction nw generalizing ex with
  | nil => simp [mergeValues]
  | cons v nw ih =>
      rw [mergeValues_cons]
      by_cases h : ex.contains v
      · rw [if_pos h, ih]
        have hv : v ∈ ex := List.mem_of_elem_eq_true h
        constructor
        · rintro (h1 | h1)
          · exact Or.inl h1
          · exact Or.inr (by simp [h1])
        · rintro (h1 | h1)
          · exact Or.inl h1
          · rcases List.mem_cons.mp h1 with rfl | h2
            · exact Or.inl hv
            · exact Or.inr h2
      · rw [if_neg h, ih]
        simp only [List.mem_append, List.mem_singleton, List.mem_cons]
        tauto

theorem mergeValues_nodup (ex nw : List Str) (h : ex.Nodup) :
    (mergeValues ex nw).Nodup := by
  induction nw generalizing ex with
  | nil => exact h
  | cons v nw ih =>
      rw [mergeValues_cons]
      by_cases hc : ex.contains v
      · rw [if_pos hc]; exact ih ex h
      · rw [if_neg hc]
        refine ih _ (List.nodup_append.mpr ⟨h, List.nodup_singleton v, ?_⟩)
        intro a ha hav
        rw [List.mem_singleton] at hav
        subst hav
        exact hc (List.elem_eq_true_of_mem ha) |>.elim
        -- hc : ¬ contains; ha : a ∈ ex

/-- The managed-header schema used for the examples: one atomic and one
list field, both applicable to `REQ`. -/
def sampleItems : HeaderConfig :=
  [{ key := str "STATUS", label := str "Status", isList := false,
     artifactTypes := [str "REQ"] },
   { key := str "COVERING_TESTS", label := str "Covering Tests",
     isList := true, artifactTypes := [str "REQ"] }]

/-- A REQ artifact without the list field. -/
def c5Content : Str := str "### REQ-1: Title\nBody text"

/-- After applying `{COVERING_TESTS: "A,B"}`. -/
def c5After1 : Str := str "### REQ-1: Title\n`Covering Tests`: A,B\nBody text"

/-- After then applying `{COVERING_TESTS: "C,A"}`. -/
def c5After2 : Str := str "### REQ-1: Title\n`Covering Tests`: A,B,C\nBody text"

/-- **C5.** For list-kind managed fields, `update_managed_header` is an
order-preserving set union: the existing members stay a prefix (their
order is untouched), the merged value contains exactly the union of the
members, no duplicate is introduced when the existing list had none; and
concretely, applying `{k: "A,B"}` to content without field `k` and then
`{k: "C,A"}` to the result yields the value `"A,B,C"`. -/
theorem updateManagedHeader_list_union :
    (∀ ex nw : List Str, ex <+: mergeValues ex nw) ∧
    (∀ (ex nw : List Str) (x : Str),
        x ∈ mergeValues ex nw ↔ x ∈ ex ∨ x ∈ nw) ∧
    (∀ ex nw : List Str, ex.Nodup → (mergeValues ex nw).Nodup) ∧
    updateManagedHeader sampleReg sampleItems c5Content
        [(str "COVERING_TESTS", str "A,B")] = .ok c5After1 ∧
    updateManagedHeader sampleReg sampleItems c5After1
        [(str "COVERING_TESTS", str "C,A")] = .ok c5After2 ∧
    (parseManagedHeaders sampleReg sampleItems c5After2).2.1.lookup
        (str "COVERING_TESTS") = some (str "A,B,C") :=
  ⟨ mergeValues_prefix, mergeValues_mem, mergeValues_nodup,
   by rfl, by rfl, by decide⟩

/-- Witness for C5: the union properties at concrete member lists. -/
theorem updateManagedHeader_list_union_witness :
    ([str "A", str "B"] <+:
        mergeValues [str "A", str "B"] [str "C", str "A"]) ∧
    ((str "C") ∈ mergeValues [str "A", str "B"] [str "C", str "A"] ↔
        (str "C") ∈ [str "A", str "B"] ∨ (str "C") ∈ [str "C", str "A"]) ∧
    (mergeValues [str "A", str "B"] [str "C", str "A"]).Nodup :=
  ⟨updateManagedHeader_list_union.1 [str "A", str "B"] [str "C", str "A"],
   updateManagedHeader_list_union.2.1 [str "A", str "B"] [str "C", str "A"]
     (str "C"),
   updateManagedHeader_list_union.2.2.1 [str "A", str "B"] [str "C", str "A"]
     (by decide)⟩

/-! ## C6: idempotence of atomic updates -/

/-- First application of the empty-valued atomic update. -/
def c6Once : Str := str "### REQ-1: Title\n`Status`: \nBody text"

/-- Second application: the serialized `` `Status`: `` line does not parse
back (the value group `(.+)` needs a non-empty value), so it falls into
the body and the header is emitted again. -/
def c6Twice : Str := str "### REQ-1: Title\n`Status`: \n`Status`: \nBody text"

/-- **C6 counterexample.** With the applicable atomic field `STATUS` and
the update value `""`, applying the same update twice does *not* yield
the same content as applying it once: the claim's unrestricted
idempotence fails. -/
theorem updateManagedHeader_idempotence_counterexample :
    updateManagedHeader sampleReg sampleItems c5Content
        [(str "STATUS", str "")] = .ok c6Once ∧
    updateManagedHeader sampleReg sampleItems c6Once
        [(str "STATUS", str "")] = .ok c6Twice ∧
    c6Twice ≠ c6Once :=
  ⟨by rfl, by rfl, by decide⟩

/-! ### String infrastructure for the idempotence proof -/

theorem splitNl_joinLines {ls : List Str} (h : ∀ l ∈ ls, '\n' ∉ l)
    (hne : ls ≠ []) : splitNl (joinLines ls) = ls :=
  List.splitOn_intercalate ls '\n' h hne

theorem joinLines_splitNl (s : Str) : joinLines (splitNl s) = s :=
  List.intercalate_splitOn s '\n'

theorem splitNl_ne_nil (s : Str) : splitNl s ≠ [] :=
  List.splitOnP_ne_nil _ s

theorem splitNl_nl_free (s : Str) : ∀ l ∈ splitNl s, '\n' ∉ l := by
  unfold splitNl List.splitOn
  induction s with
  | nil => simp [List.splitOnP_nil]
  | cons c cs ih =>
      rw [List.splitOnP_cons]
      by_cases hc : c = '\n'
      · subst hc
        simp only [beq_self_eq_true, if_pos]
        intro l hl
        rcases List.mem_cons.mp hl with rfl | hl'
        · simp
        · exact ih l hl'
      · have : (c == '\n') = false := by simp [hc]
        rw [this]
        simp only [Bool.false_eq_true, if_neg, not_false_iff]
        intro l hl
        cases hsp : cs.splitOnP (fun a => a == '\n') with
        | nil => exact absurd hsp (List.splitOnP_ne_nil _ cs)
        | cons hd tl =>
            rw [hsp] at hl
            simp only [List.modifyHead] at hl
            rcases List.mem_cons.mp hl with rfl | hl'
            · intro hmem
              rcases List.mem_cons.mp hmem with rfl | hmem'
              · exact hc rfl
              · exact ih hd (by rw [hsp]; simp) hmem'
            · exact ih l (by rw [hsp]; simp [hl'])

theorem joinLines_nil : joinLines [] = [] := rfl

theorem joinLines_singleton (a : Str) : joinLines [a] = a := by
  simp [joinLines, List.intercalate]

theorem joinLines_cons₂ (x y : Str) (zs : List Str) :
    joinLines (x :: y :: zs) = x ++ '\n' :: joinLines (y :: zs) := by
  simp [joinLines, List.intercalate, List.intersperse]

theorem joinLines_flatten (xs : List Str) {ys : List Str} (hys : ys ≠ []) :
    joinLines (xs ++ [joinLines ys]) = joinLines (xs ++ ys) := by
  induction xs with
  | nil =>
      simp only [List.nil_append]
      rw [joinLines_singleton]
  | cons x xs ih =>
      cases xs with
      | nil =>
          cases ys with
          | nil => exact absurd rfl hys
          | cons y ys' =>
              show joinLines (x :: [joinLines (y :: ys')])
                  = joinLines (x :: y :: ys')
              rw [joinLines_cons₂, joinLines_singleton, joinLines_cons₂]
      | cons x' xs' =>
          show joinLines (x :: x' :: (xs' ++ [joinLines ys]))
              = joinLines (x :: x' :: (xs' ++ ys))
          rw [joinLines_cons₂, joinLines_cons₂]
          simp only [List.cons_append] at ih
          rw [ih]

theorem mem_dropWhile {p : Char → Bool} {l : Str} {c : Char}
    (h : c ∈ l.dropWhile p) : c ∈ l := by
  induction l with
  | nil => simp at h
  | cons a as ih =>
      rw [List.dropWhile_cons] at h
      by_cases ha : p a
      · rw [if_pos ha] at h; exact List.mem_cons_of_mem a (ih h)
      · rw [if_neg ha] at h; exact h

theorem mem_dropEndWs {l : Str} {c : Char} (h : c ∈ dropEndWs l) : c ∈ l := by
  unfold dropEndWs at h
  rw [List.mem_reverse] at h
  exact List.mem_reverse.mp (mem_dropWhile h)

theorem mem_pyStrip {l : Str} {c : Char} (h : c ∈ pyStrip l) : c ∈ l :=
  mem_dropWhile (mem_dropEndWs h)

theorem dropEndWs_eq_nil_iff (l : Str) :
    dropEndWs l = [] ↔ ∀ c ∈ l, isWs c = true := by
  unfold dropEndWs
  constructor
  · intro h c hc
    have h' : l.reverse.dropWhile isWs = [] := by
      have := congrArg List.reverse h
      simpa using this
    exact List.dropWhile_eq_nil_iff.mp h' c (List.mem_reverse.mpr hc)
  · intro h
    have h' : l.reverse.dropWhile isWs = [] :=
      List.dropWhile_eq_nil_iff.mpr (fun c hc => h c (List.mem_reverse.mp hc))
    rw [h']
    rfl

theorem dropEndWs_append {xs : Str} (ys : Str) (h : dropEndWs ys ≠ []) :
    dropEndWs (xs ++ ys) = xs ++ dropEndWs ys := by
  unfold dropEndWs at *
  rw [List.reverse_append]
  rw [List.dropWhile_append]
  have hne : ys.reverse.dropWhile isWs ≠ [] := by
    intro hc
    exact h (by rw [hc]; rfl)
  simp only [List.isEmpty_iff, hne, if_neg, not_false_iff]
  rw [List.reverse_append, List.reverse_reverse]

theorem dropWhile_eq_self_of_head {p : Char → Bool} {l : Str}
    (h : ∀ c, l.head? = some c → p c = false) : l.dropWhile p = l := by
  cases l with
  | nil => rfl
  | cons a as =>
      rw [List.dropWhile_cons, if_neg]
      simp [h a rfl]

theorem head?_dropWhile_not {p : Char → Bool} {l : Str} {c : Char}
    (h : (l.dropWhile p).head? = some c) : p c = false := by
  induction l with
  | nil => simp at h
  | cons a as ih =>
      rw [List.dropWhile_cons] at h
      by_cases ha : p a
      · rw [if_pos ha] at h; exact ih h
      · rw [if_neg ha] at h
        simp only [List.head?_cons, Option.some.injEq] at h
        subst h
        simpa using ha

theorem dropWhile_dropWhile (p : Char → Bool) (l : Str) :
    (l.dropWhile p).dropWhile p = l.dropWhile p := by
  apply dropWhile_eq_self_of_head
  intro c hc
  exact head?_dropWhile_not hc

theorem dropEndWs_idem (l : Str) : dropEndWs (dropEndWs l) = dropEndWs l := by
  unfold dropEndWs
  rw [List.reverse_reverse]
  congr 1
  exact dropWhile_dropWhile _ _

theorem dropEndWs_prefix_decomp (l : Str) :
    ∃ t, l = dropEndWs l ++ t ∧ ∀ c ∈ t, isWs c = true := by
  refine ⟨(l.reverse.takeWhile isWs).reverse, ?_, ?_⟩
  · unfold dropEndWs
    conv_lhs => rw [← l.reverse_reverse]
    conv_lhs =>
      rw [← List.takeWhile_append_dropWhile (p := isWs) (l := l.reverse)]
    rw [List.reverse_append]
  · intro c hc
    rw [List.mem_reverse] at hc
    exact List.mem_takeWhile_imp hc

theorem pyStrip_dropWhile_fix (s : Str) :
    (pyStrip s).dropWhile isWs = pyStrip s := by
  unfold pyStrip
  apply dropWhile_eq_self_of_head
  intro c hc
  obtain ⟨t, ht, _⟩ := dropEndWs_prefix_decomp (s.dropWhile isWs)
  have hh : (s.dropWhile isWs).head? = some c := by
    rw [ht]
    cases hde : dropEndWs (s.dropWhile isWs) with
    | nil => rw [hde] at hc; simp at hc
    | cons d ds =>
        rw [hde] at hc
        simp only [List.head?_cons, Option.some.injEq] at hc
        subst hc
        simp
  exact head?_dropWhile_not hh

theorem pyStrip_dropEndWs_fix (s : Str) : dropEndWs (pyStrip s) = pyStrip s := by
  unfold pyStrip
  exact dropEndWs_idem _

theorem pyStrip_idem (s : Str) : pyStrip (pyStrip s) = pyStrip s := by
  show dropEndWs ((pyStrip s).dropWhile isWs) = pyStrip s
  rw [pyStrip_dropWhile_fix, pyStrip_dropEndWs_fix]

theorem trimFixed_dropWhile {s : Str} (h : pyStrip s = s) :
    s.dropWhile isWs = s := by
  conv_lhs => rw [← h]
  rw [pyStrip_dropWhile_fix, h]

theorem trimFixed_dropEndWs {s : Str} (h : pyStrip s = s) :
    dropEndWs s = s := by
  conv_lhs => rw [← h]
  rw [pyStrip_dropEndWs_fix, h]

theorem pyStrip_eq_self_of (s : Str) (h1 : s.dropWhile isWs = s)
    (h2 : dropEndWs s = s) : pyStrip s = s := by
  unfold pyStrip
  rw [h1, h2]

theorem pyStrip_eq_nil_iff (s : Str) :
    pyStrip s = [] ↔ ∀ c ∈ s, isWs c = true := by
  unfold pyStrip
  constructor
  · intro h c hc
    have hdrop : ∀ c ∈ s.dropWhile isWs, isWs c = true :=
      (dropEndWs_eq_nil_iff _).mp h
    have hsplit : s = s.takeWhile isWs ++ s.dropWhile isWs :=
      (List.takeWhile_append_dropWhile isWs s).symm
    rw [hsplit] at hc
    rcases List.mem_append.mp hc with h1 | h1
    · exact List.mem_takeWhile_imp h1
    · exact hdrop c h1
  · intro h
    have h1 : s.dropWhile isWs = [] := List.dropWhile_eq_nil_iff.mpr h
    rw [h1]
    rfl

theorem joinLines_append {xs ys : List Str} (hxs : xs ≠ []) (hys : ys ≠ []) :
    joinLines (xs ++ ys) = joinLines xs ++ '\n' :: joinLines ys := by
  induction xs with
  | nil => exact absurd rfl hxs
  | cons x xs ih =>
      cases xs with
      | nil =>
          cases ys with
          | nil => exact absurd rfl hys
          | cons y ys' =>
              show joinLines (x :: y :: ys')
                  = joinLines [x] ++ '\n' :: joinLines (y :: ys')
              rw [joinLines_cons₂, joinLines_singleton]
      | cons x' xs' =>
          show joinLines (x :: x' :: (xs' ++ ys))
              = joinLines (x :: x' :: xs') ++ '\n' :: joinLines ys
          rw [joinLines_cons₂ x x' (xs' ++ ys), joinLines_cons₂ x x' xs']
          have hih := ih (by simp)
          simp only [List.cons_append] at hih
          rw [hih]
          simp

theorem dropWhile_append_none {p : Char → Bool} {l₁ : Str} (l₂ : Str)
    (h₁ : l₁ ≠ []) (h : p (l₁.headD ' ') = false) :
    (l₁ ++ l₂).dropWhile p = l₁ ++ l₂ := by
  cases l₁ with
  | nil => exact absurd rfl h₁
  | cons a l =>
      simp only [List.headD_cons] at h
      simp [List.dropWhile_cons, h]

theorem head_not_ws_of_dropWhile_fix {l : Str} (hne : l ≠ [])
    (hfix : l.dropWhile isWs = l) : isWs (l.headD ' ') = false := by
  cases l with
  | nil => exact absurd rfl hne
  | cons c cs =>
      simp only [List.headD_cons]
      by_contra hw
      rw [Bool.not_eq_false] at hw
      rw [List.dropWhile_cons, if_pos hw] at hfix
      have hlen := congrArg List.length hfix
      have hle : (cs.dropWhile isWs).length ≤ cs.length :=
        (List.dropWhile_sublist _).length_le
      simp at hlen
      omega

theorem dropWhile_joinLines {l₀ : Str} (rest : List Str) (hne : l₀ ≠ [])
    (hfix : l₀.dropWhile isWs = l₀) :
    (joinLines (l₀ :: rest)).dropWhile isWs = joinLines (l₀ :: rest) := by
  cases rest with
  | nil => rw [joinLines_singleton]; exact hfix
  | cons r rs =>
      rw [joinLines_cons₂]
      exact dropWhile_append_none _ hne (head_not_ws_of_dropWhile_fix hne hfix)

theorem dropEndWs_joinLines_last (init : List Str) {last : Str}
    (h : dropEndWs last ≠ []) :
    dropEndWs (joinLines (init ++ [last]))
      = joinLines (init ++ [dropEndWs last]) := by
  cases init with
  | nil =>
      simp only [List.nil_append]
      rw [joinLines_singleton, joinLines_singleton]
  | cons i is =>
      rw [joinLines_append (by simp) (by simp),
        joinLines_append (by simp) (by simp),
        joinLines_singleton, joinLines_singleton]
      have : joinLines (i :: is) ++ '\n' :: last
          = (joinLines (i :: is) ++ ['\n']) ++ last := by simp
      rw [this, dropEndWs_append last h]
      simp

theorem splitNl_single {l : Str} (h : '\n' ∉ l) : splitNl l = [l] := by
  unfold splitNl List.splitOn
  exact List.splitOnP_eq_single _ _ (fun c hc hp => h (by
    rw [← eq_of_beq hp]
    exact hc))

theorem getLast?_joinLines_append (xs : List Str) {last : Str}
    (h : last ≠ []) :
    (joinLines (xs ++ [last])).getLast? = last.getLast? := by
  cases xs with
  | nil =>
      simp only [List.nil_append]
      rw [joinLines_singleton]
  | cons x xs' =>
      rw [joinLines_append (by simp) (by simp), joinLines_singleton]
      rw [List.getLast?_append_of_ne_nil _ (by simp [h])]
      show (['\n'] ++ last).getLast? = last.getLast?
      exact List.getLast?_append_of_ne_nil _ h

theorem dropEndWs_eq_self_of_getLast {l : Str}
    (h : ∀ c, l.getLast? = some c → isWs c = false) : dropEndWs l = l := by
  unfold dropEndWs
  rw [dropWhile_eq_self_of_head, List.reverse_reverse]
  intro c hc
  refine h c ?_
  rw [List.getLast?_eq_head?_reverse]
  exact hc

theorem getLast_not_ws_of_dropEndWs_fix {l : Str} (hne : l ≠ [])
    (hfix : dropEndWs l = l) :
    ∀ c, l.getLast? = some c → isWs c = false := by
  intro c hc
  rw [List.getLast?_eq_head?_reverse] at hc
  have hrevfix : l.reverse.dropWhile isWs = l.reverse := by
    have := congrArg List.reverse hfix
    unfold dropEndWs at this
    simpa using this
  have := head_not_ws_of_dropWhile_fix (by simpa using hne) hrevfix
  cases hrev : l.reverse with
  | nil => rw [hrev] at hc; simp at hc
  | cons d ds =>
      rw [hrev] at hc this
      simp only [List.head?_cons, Option.some.injEq] at hc
      subst hc
      simpa using this

/-! ### Serialized header lines and their reparse -/

theorem serHeaderLine_eq (label v : Str) :
    serHeaderLine label v = ('`' :: rstripColon label ++ ['`', ':', ' ']) ++ v := by
  simp [serHeaderLine]

theorem dropEndWs_of_pyStrip_ne_nil {v : Str} (h : pyStrip v ≠ []) :
    dropEndWs v ≠ [] := by
  intro hc
  exact h ((pyStrip_eq_nil_iff v).mpr ((dropEndWs_eq_nil_iff v).mp hc))

theorem dropWhile_dropEndWs_ne_nil {v : Str} (h : pyStrip v ≠ []) :
    (dropEndWs v).dropWhile isWs ≠ [] := by
  intro hc
  have h1 : ∀ c ∈ dropEndWs v, isWs c = true := List.dropWhile_eq_nil_iff.mp hc
  have h2 : dropEndWs v = [] := by
    have := (dropEndWs_eq_nil_iff (dropEndWs v)).mpr h1
    rwa [dropEndWs_idem] at this
  exact dropEndWs_of_pyStrip_ne_nil h h2

theorem pyStrip_serHeaderLine (label v : Str) (hv : pyStrip v ≠ []) :
    pyStrip (serHeaderLine label v) = serHeaderLine label (dropEndWs v) := by
  rw [serHeaderLine_eq, serHeaderLine_eq]
  unfold pyStrip
  rw [show ('`' :: rstripColon label ++ ['`', ':', ' ']) ++ v
      = ('`' :: (rstripColon label ++ ['`', ':', ' '])) ++ v from by simp]
  rw [dropWhile_append_none v (by simp) (by rw [List.headD_cons]; decide)]
  rw [dropEndWs_append v (dropEndWs_of_pyStrip_ne_nil hv)]
  simp

theorem matchBacktick_ser (L w : Str) (hLne : L ≠ [])
    (hL : ∀ c ∈ L, c ≠ '`') (hw : w.dropWhile isWs ≠ []) :
    matchBacktick ('`' :: (L ++ '`' :: ':' :: ' ' :: w))
      = some (L, w.dropWhile isWs) := by
  show (let label := (L ++ '`' :: ':' :: ' ' :: w).takeWhile (fun c => c ≠ '`');
        if label.isEmpty then none
        else
          match (L ++ '`' :: ':' :: ' ' :: w).drop label.length with
          | '`' :: ':' :: rest2 =>
              let v := rest2.dropWhile isWs
              if v.isEmpty then none else some (label, v)
          | _ => none) = some (L, w.dropWhile isWs)
  have htake : (L ++ '`' :: ':' :: ' ' :: w).takeWhile (fun c => c ≠ '`') = L := by
    rw [takeWhile_append_all _ (fun c hc => by simp [hL c hc])]
    simp [List.takeWhile_cons]
  simp only [htake]
  rw [if_neg (by simpa [List.isEmpty_iff] using hLne)]
  rw [List.drop_left]
  show (let v := (' ' :: w).dropWhile isWs;
        if v.isEmpty then none else some (L, v)) = some (L, w.dropWhile isWs)
  have hsp : (' ' :: w).dropWhile isWs = w.dropWhile isWs := by
    rw [List.dropWhile_cons, if_pos (by decide)]
  simp only [hsp]
  rw [if_neg (by simpa [List.isEmpty_iff] using hw)]

theorem find?_by_label {app : HeaderConfig}
    (hinjL : (app.map (fun it => rstripColon it.label)).Nodup)
    {it : HeaderItem} (hmem : it ∈ app) :
    app.find? (fun x => rstripColon x.label == rstripColon it.label)
      = some it := by
  induction app with
  | nil => simp at hmem
  | cons a rest ih =>
      rcases List.mem_cons.mp hmem with rfl | hmem'
      · exact List.find?_cons_of_pos _ (by simp)
      · rw [List.map_cons, List.nodup_cons] at hinjL
        have hne : rstripColon a.label ≠ rstripColon it.label := by
          intro he
          exact hinjL.1 (he ▸ List.mem_map_of_mem _ hmem')
        rw [List.find?_cons_of_neg _ (by simpa using hne)]
        exact ih hinjL.2 hmem'

/-! ### Dictionary (association list) lemmas -/

theorem lookup_map_setIf (d : List (Str × Str)) {k k' : Str} (v : Str)
    (h : k ≠ k') :
    List.lookup k (d.map (fun p => if p.1 == k' then (k', v) else p))
      = List.lookup k d := by
  induction d with
  | nil => rfl
  | cons p rest ih =>
      simp only [List.map_cons]
      by_cases hp : p.1 = k'
      · rw [if_pos (by simp [hp])]
        rw [List.lookup_cons, List.lookup_cons]
        have hk : (k == p.1) = false := by simp [hp, h]
        have hk' : (k == k') = false := by simp [h]
        rw [hk, hk', ih]
      · rw [if_neg (by simp [hp])]
        rw [List.lookup_cons, List.lookup_cons]
        by_cases hkp : k = p.1
        · rw [show (k == p.1) = true from by simp [hkp]]
        · rw [show (k == p.1) = false from by simp [hkp], ih]

theorem lookup_eq_none_of_no_key (d : List (Str × Str)) {k : Str}
    (h : ∀ p ∈ d, p.1 ≠ k) : List.lookup k d = none := by
  induction d with
  | nil => rfl
  | cons p rest ih =>
      rw [List.lookup_cons]
      have hk : (k == p.1) = false := by
        simp only [beq_eq_false_iff_ne, ne_eq]
        exact fun he => h p (by simp) he.symm
      rw [hk]
      exact ih (fun q hq => h q (by simp [hq]))

theorem lookup_dictSet_ne (d : List (Str × Str)) {k k' : Str} (v : Str)
    (h : k ≠ k') : List.lookup k (dictSet d k' v) = List.lookup k d := by
  unfold dictSet
  by_cases hany : d.any (fun p => p.1 == k')
  · rw [if_pos hany]
    exact lookup_map_setIf d v h
  · rw [if_neg hany, List.lookup_append]
    have h1 : List.lookup k [(k', v)] = none := by
      rw [List.lookup_cons]
      rw [show (k == k') = false from by simp [h]]
      rfl
    rw [h1]
    cases List.lookup k d <;> rfl

theorem lookup_dictSet_eq (d : List (Str × Str)) (k' : Str) (v : Str) :
    List.lookup k' (dictSet d k' v) = some v := by
  unfold dictSet
  by_cases hany : d.any (fun p => p.1 == k')
  · rw [if_pos hany]
    induction d with
    | nil => simp at hany
    | cons p rest ih =>
        simp only [List.map_cons]
        by_cases hp : p.1 = k'
        · rw [if_pos (by simp [hp])]
          rw [List.lookup_cons]
          rw [show (k' == k') = true from by simp]
        · rw [if_neg (by simp [hp])]
          rw [List.lookup_cons]
          rw [show (k' == p.1) = false from by
            simp only [beq_eq_false_iff_ne, ne_eq]
            exact fun he => hp he.symm]
          apply ih
          rcases List.any_eq_true.mp hany with ⟨q, hq, hq'⟩
          rcases List.mem_cons.mp hq with rfl | hq''
          · exact absurd (by simpa using hq') hp
          · exact List.any_eq_true.mpr ⟨q, hq'', hq'⟩
  · rw [if_neg hany, List.lookup_append]
    have h1 : List.lookup k' d = none := by
      apply lookup_eq_none_of_no_key
      intro p hp he
      rw [List.any_eq_true] at hany
      exact hany ⟨p, hp, by simp [he]⟩
    rw [h1]
    rw [List.lookup_cons]
    rw [show (k' == k') = true from by simp]
    rfl

/-! ### The header-scanning loop -/

theorem parseML_cons (app : HeaderConfig) (l : Str) (ls : List Str)
    (acc : List (Str × Str)) :
    parseML app (l :: ls) acc
      = (if (pyStrip l).isEmpty then
           ((parseML app ls acc).1, (parseML app ls acc).2 + 1)
         else
           match matchBacktick (pyStrip l) with
           | none => (acc, 0)
           | some (label, value) =>
               match app.find? (fun it => rstripColon it.label == label) with
               | none => (acc, 0)
               | some it =>
                   ((parseML app ls (dictSet acc it.key (pyStrip value))).1,
                    (parseML app ls (dictSet acc it.key (pyStrip value))).2 + 1)) :=
  rfl

/-- After the loop stops, re-running it on the remaining lines consumes
nothing (the stopping decision does not depend on the accumulator). -/
theorem parseML_drop_break (app : HeaderConfig) (ls : List Str) :
    ∀ (acc : List (Str × Str)),
    ∀ acc', parseML app (ls.drop (parseML app ls acc).2) acc' = (acc', 0) := by
  induction ls with
  | nil => intro acc acc'; rfl
  | cons l ls ih =>
      intro acc acc'
      by_cases hblank : (pyStrip l).isEmpty
      · rw [parseML_cons, if_pos hblank]
        show parseML app (ls.drop (parseML app ls acc).2) acc' = (acc', 0)
        exact ih acc acc'
      · rw [parseML_cons, if_neg hblank]
        cases hmb : matchBacktick (pyStrip l) with
        | none =>
            show parseML app (l :: ls) acc' = (acc', 0)
            rw [parseML_cons, if_neg hblank, hmb]
        | some lv =>
            cases hf : app.find? (fun it => rstripColon it.label == lv.1) with
            | none =>
                show parseML app ((l :: ls).drop
                    (match app.find? (fun (it : HeaderItem) => rstripColon it.label == lv.1) with
                     | none => (acc, 0)
                     | some (it : HeaderItem) =>
                         ((parseML app ls (dictSet acc it.key (pyStrip lv.2))).1,
                          (parseML app ls
                            (dictSet acc it.key (pyStrip lv.2))).2 + 1)).2) acc'
                    = (acc', 0)
                rw [hf]
                show parseML app (l :: ls) acc' = (acc', 0)
                rw [parseML_cons, if_neg hblank, hmb]
                show (match app.find?
                        (fun (it : HeaderItem) => rstripColon it.label == lv.1) with
                      | none => ((acc' : List (Str × Str)), 0)
                      | some (it : HeaderItem) =>
                          ((parseML app ls (dictSet acc' it.key (pyStrip lv.2))).1,
                           (parseML app ls
                             (dictSet acc' it.key (pyStrip lv.2))).2 + 1))
                    = (acc', 0)
                rw [hf]
            | some it =>
                show parseML app ((l :: ls).drop
                    (match app.find? (fun (it : HeaderItem) => rstripColon it.label == lv.1) with
                     | none => (acc, 0)
                     | some (it : HeaderItem) =>
                         ((parseML app ls (dictSet acc it.key (pyStrip lv.2))).1,
                          (parseML app ls
                            (dictSet acc it.key (pyStrip lv.2))).2 + 1)).2) acc'
                    = (acc', 0)
                rw [hf]
                show parseML app
                    (ls.drop (parseML app ls (dictSet acc it.key (pyStrip lv.2))).2)
                    acc' = (acc', 0)
                exact ih _ acc'

/-- Parsing the serialized header lines followed by a non-consuming tail
accumulates exactly the serialized `(key, storedVal value)` pairs, in
order. -/
theorem parseML_ser_append (app : HeaderConfig)
    (hlab : ∀ it ∈ app, rstripColon it.label ≠ []
        ∧ ∀ c ∈ rstripColon it.label, c ≠ '`')
    (hinjL : (app.map (fun it => rstripColon it.label)).Nodup)
    (ps : List (HeaderItem × Str)) (tail : List Str)
    (hps : ∀ p ∈ ps, p.1 ∈ app ∧ pyStrip p.2 ≠ [])
    (htail : ∀ acc', parseML app tail acc' = (acc', 0)) :
    ∀ acc,
    parseML app (ps.map (fun (p : HeaderItem × Str) => serHeaderLine p.1.label p.2) ++ tail) acc
      = ((ps.map (fun p => (p.1.key, storedVal p.2))).foldl
          (fun a q => dictSet a q.1 q.2) acc, ps.length) := by
  induction ps with
  | nil =>
      intro acc
      simpa using htail acc
  | cons p ps ih =>
      intro acc
      have hp := hps p (by simp)
      have hlabp := hlab p.1 hp.1
      simp only [List.map_cons, List.cons_append]
      rw [parseML_cons, pyStrip_serHeaderLine _ _ hp.2]
      have hserne : (serHeaderLine p.1.label (dropEndWs p.2)).isEmpty = false :=
        rfl
      rw [if_neg (by simp [hserne])]
      have hmb : matchBacktick (serHeaderLine p.1.label (dropEndWs p.2))
          = some (rstripColon p.1.label, (dropEndWs p.2).dropWhile isWs) := by
        rw [show serHeaderLine p.1.label (dropEndWs p.2)
            = '`' :: (rstripColon p.1.label
                ++ '`' :: ':' :: ' ' :: dropEndWs p.2) from by
          simp [serHeaderLine]]
        exact matchBacktick_ser _ _ hlabp.1 hlabp.2
          (dropWhile_dropEndWs_ne_nil hp.2)
      rw [hmb]
      show (match app.find? (fun it =>
              rstripColon it.label == rstripColon p.1.label) with
            | none => (acc, 0)
            | some it =>
                ((parseML app (ps.map (fun (p : HeaderItem × Str) => serHeaderLine p.1.label p.2) ++ tail)
                    (dictSet acc it.key
                      (pyStrip ((dropEndWs p.2).dropWhile isWs)))).1,
                 (parseML app (ps.map (fun (p : HeaderItem × Str) => serHeaderLine p.1.label p.2) ++ tail)
                    (dictSet acc it.key
                      (pyStrip ((dropEndWs p.2).dropWhile isWs)))).2 + 1))
          = _
      rw [find?_by_label hinjL hp.1]
      show ((parseML app (ps.map (fun (p : HeaderItem × Str) => serHeaderLine p.1.label p.2) ++ tail)
              (dictSet acc p.1.key
                (pyStrip ((dropEndWs p.2).dropWhile isWs)))).1,
            (parseML app (ps.map (fun (p : HeaderItem × Str) => serHeaderLine p.1.label p.2) ++ tail)
              (dictSet acc p.1.key
                (pyStrip ((dropEndWs p.2).dropWhile isWs)))).2 + 1)
          = _
      rw [ih (fun q hq => hps q (by simp [hq]))
        (dictSet acc p.1.key (pyStrip ((dropEndWs p.2).dropWhile isWs)))]
      rfl

/-! ### Reduction shapes of the full update entry point -/

theorem parseManagedHeaders_fst (reg : TypeRegistry) (items : HeaderConfig)
    (s : Str) : (parseManagedHeaders reg items s).1
      = pyStrip ((splitNl (pyStrip s)).headD []) := by
  unfold parseManagedHeaders
  cases hx : extractTypeAndId reg s with
  | none => rfl
  | some p => cases p; rfl

theorem parseManagedHeaders_of_extract (reg : TypeRegistry)
    (items : HeaderConfig) (s ty aid : Str)
    (hty : extractTypeAndId reg s = some (ty, aid)) :
    parseManagedHeaders reg items s
      = (pyStrip ((splitNl (pyStrip s)).headD []),
         (parseML (applicableItems items ty)
           ((splitNl (pyStrip s)).drop 1) []).1,
         joinLines ((splitNl (pyStrip s)).drop
           (1 + (parseML (applicableItems items ty)
             ((splitNl (pyStrip s)).drop 1) []).2))) := by
  unfold parseManagedHeaders
  rw [hty]

theorem updateManagedHeader_empty_header (reg : TypeRegistry)
    (items : HeaderConfig) (s : Str) (U : List (Str × Str))
    (hne : (pyStrip ((splitNl (pyStrip s)).headD [])).isEmpty = true) :
    updateManagedHeader reg items s U
      = .error (str "Could not parse artifact header from content") := by
  simp only [updateManagedHeader]
  rw [parseManagedHeaders_fst, if_pos hne]

theorem updateManagedHeader_eq (reg : TypeRegistry) (items : HeaderConfig)
    (s : Str) (U : List (Str × Str)) (ty aid : Str)
    (hty : extractTypeAndId reg s = some (ty, aid))
    (hne : (pyStrip ((splitNl (pyStrip s)).headD [])).isEmpty = false) :
    updateManagedHeader reg items s U = .ok (joinLines (
      if (pyStrip (joinLines ((splitNl (pyStrip s)).drop
            (1 + (parseML (applicableItems items ty)
              ((splitNl (pyStrip s)).drop 1) []).2)))).isEmpty
      then pyStrip ((splitNl (pyStrip s)).headD [])
          :: (applicableItems items ty).filterMap (fun it =>
            (List.lookup it.key (applyUpdates (applicableItems items ty)
                (parseML (applicableItems items ty)
                  ((splitNl (pyStrip s)).drop 1) []).1 U)).map
              (fun v => serHeaderLine it.label v))
      else (pyStrip ((splitNl (pyStrip s)).headD [])
          :: (applicableItems items ty).filterMap (fun it =>
            (List.lookup it.key (applyUpdates (applicableItems items ty)
                (parseML (applicableItems items ty)
                  ((splitNl (pyStrip s)).drop 1) []).1 U)).map
              (fun v => serHeaderLine it.label v)))
        ++ [joinLines ((splitNl (pyStrip s)).drop
            (1 + (parseML (applicableItems items ty)
              ((splitNl (pyStrip s)).drop 1) []).2))])) := by
  simp only [updateManagedHeader]
  rw [parseManagedHeaders_of_extract reg items s ty aid hty]
  rw [hty]
  rw [if_neg (by intro h; rw [hne] at h; exact Bool.false_ne_true h)]

/-! ### Provenance of dictionary entries -/

theorem mem_dictSet {d : List (Str × Str)} {k v : Str} {q : Str × Str}
    (h : q ∈ dictSet d k v) : q ∈ d ∨ q = (k, v) := by
  unfold dictSet at h
  by_cases hany : d.any (fun p => p.1 == k)
  · rw [if_pos hany] at h
    rcases List.mem_map.mp h with ⟨p, hp, heq⟩
    by_cases hpk : p.1 = k
    · right
      rw [← heq, if_pos (by simp [hpk])]
    · left
      rw [← heq, if_neg (by simp [hpk])]
      exact hp
  · rw [if_neg hany] at h
    rcases List.mem_append.mp h with h' | h'
    · left; exact h'
    · right; simpa using h'

theorem lookup_mem {d : List (Str × Str)} {k v : Str}
    (h : List.lookup k d = some v) : (k, v) ∈ d := by
  induction d with
  | nil => simp [List.lookup] at h
  | cons p rest ih =>
      rw [List.lookup_cons] at h
      by_cases hkp : k = p.1
      · rw [show (k == p.1) = true from by simp [hkp]] at h
        have hv : v = p.2 := by simpa using h.symm
        rw [hkp, hv, Prod.mk.eta]
        exact List.mem_cons_self p rest
      · rw [show (k == p.1) = false from by simp [hkp]] at h
        exact List.mem_cons_of_mem _ (ih h)

theorem lookup_foldl_dictSet (U : List (Str × Str)) :
    ∀ (d : List (Str × Str)) (k : Str),
    List.lookup k (U.foldl (fun a kv => dictSet a kv.1 kv.2) d)
      = (List.lookup k (U.foldl (fun a kv => dictSet a kv.1 kv.2) [])).or
          (List.lookup k d) := by
  induction U with
  | nil => intro d k; simp [List.lookup]
  | cons kv U ih =>
      intro d k
      rw [List.foldl_cons, List.foldl_cons]
      rw [ih (dictSet d kv.1 kv.2) k, ih (dictSet [] kv.1 kv.2) k]
      cases List.lookup k (U.foldl (fun a kv => dictSet a kv.1 kv.2) []) with
      | some v => rfl
      | none =>
          show List.lookup k (dictSet d kv.1 kv.2)
              = (List.lookup k (dictSet [] kv.1 kv.2)).or (List.lookup k d)
          by_cases hk : k = kv.1
          · subst hk
            rw [lookup_dictSet_eq, lookup_dictSet_eq]
            rfl
          · rw [lookup_dictSet_ne _ _ hk, lookup_dictSet_ne _ _ hk]
            simp [List.lookup]

theorem mem_foldl_dictSet (U : List (Str × Str)) :
    ∀ (d : List (Str × Str)) (q : Str × Str),
    q ∈ U.foldl (fun a kv => dictSet a kv.1 kv.2) d → q ∈ d ∨ q ∈ U := by
  induction U with
  | nil =>
      intro d q h
      left
      simpa using h
  | cons kv U ih =>
      intro d q h
      rw [List.foldl_cons] at h
      rcases ih _ q h with h' | h'
      · rcases mem_dictSet h' with h'' | h''
        · left; exact h''
        · right; rw [h'', Prod.mk.eta]; exact List.mem_cons_self kv U
      · right; exact List.mem_cons_of_mem _ h'

theorem foldl_dictSet_of_nodup (qs : List (Str × Str)) :
    ∀ (d : List (Str × Str)),
    ((d ++ qs).map (fun q => q.1)).Nodup →
    qs.foldl (fun a kv => dictSet a kv.1 kv.2) d = d ++ qs := by
  induction qs with
  | nil => intro d _; simp
  | cons q qs ih =>
      intro d hnd
      rw [List.foldl_cons]
      have hq1d : ∀ p ∈ d, p.1 ≠ q.1 := by
        intro p hp he
        rw [List.map_append] at hnd
        have hdisj := (List.nodup_append.mp hnd).2.2
        exact hdisj (List.mem_map_of_mem _ hp)
          (by rw [he]; exact List.mem_map_of_mem _ (List.mem_cons_self q qs))
      have hstep : dictSet d q.1 q.2 = d ++ [q] := by
        unfold dictSet
        rw [if_neg (by
          intro hc
          rcases List.any_eq_true.mp hc with ⟨p, hp, hpe⟩
          exact hq1d p hp (by simpa using hpe))]
      rw [hstep]
      have hre : (d ++ [q]) ++ qs = d ++ q :: qs := by
        rw [List.append_assoc, List.singleton_append]
      rw [ih (d ++ [q]) (by rw [hre]; exact hnd), hre]

/-! ### What a successful backtick-line match guarantees -/

theorem matchBacktick_good {line : Str} {lv : Str × Str}
    (h : matchBacktick line = some lv) :
    lv.2.dropWhile isWs = lv.2 ∧ lv.2 ≠ [] ∧ ∀ c ∈ lv.2, c ∈ line := by
  unfold matchBacktick at h
  split at h
  case h_2 => exact absurd h (by simp)
  case h_1 c rest =>
    simp only at h
    split at h
    · exact absurd h (by simp)
    · split at h
      case h_2 => exact absurd h (by simp)
      case h_1 rest2 heq =>
        split at h
        · exact absurd h (by simp)
        next hvne =>
          have hlv : lv = (rest.takeWhile (fun c => c ≠ '`'),
              rest2.dropWhile isWs) := by
            simpa using h.symm
          subst hlv
          refine ⟨dropWhile_dropWhile _ _, by simpa [List.isEmpty_iff] using hvne, ?_⟩
          intro c' hc'
          have h1 : c' ∈ rest2 := mem_dropWhile hc'
          have h2 : c' ∈ rest.drop
              (rest.takeWhile (fun c => c ≠ '`')).length := by
            rw [heq]
            exact List.mem_cons_of_mem _ (List.mem_cons_of_mem _ h1)
          exact List.mem_cons_of_mem _ (List.drop_subset _ rest h2)

/-! ### Every value stored by the header parser is a stripped,
non-empty, newline-free string -/

theorem parseML_good (app : HeaderConfig) :
    ∀ (ls : List Str) (acc : List (Str × Str)),
    (∀ l ∈ ls, '\n' ∉ l) →
    (∀ q ∈ acc, pyStrip q.2 = q.2 ∧ q.2 ≠ [] ∧ '\n' ∉ q.2) →
    ∀ q ∈ (parseML app ls acc).1,
      pyStrip q.2 = q.2 ∧ q.2 ≠ [] ∧ '\n' ∉ q.2 := by
  intro ls
  induction ls with
  | nil => intro acc _ hacc q hq; exact hacc q hq
  | cons l ls ih =>
      intro acc hnl hacc q hq
      rw [parseML_cons] at hq
      by_cases hblank : (pyStrip l).isEmpty
      · rw [if_pos hblank] at hq
        exact ih acc (fun x hx => hnl x (List.mem_cons_of_mem _ hx)) hacc q hq
      · rw [if_neg hblank] at hq
        cases hmb : matchBacktick (pyStrip l) with
        | none =>
            rw [hmb] at hq
            exact hacc q hq
        | some lv =>
            rw [hmb] at hq
            have hq' : q ∈ (match app.find?
                (fun (it : HeaderItem) => rstripColon it.label == lv.1) with
              | none => ((acc : List (Str × Str)), 0)
              | some (it : HeaderItem) =>
                  ((parseML app ls (dictSet acc it.key (pyStrip lv.2))).1,
                   (parseML app ls
                     (dictSet acc it.key (pyStrip lv.2))).2 + 1)).1 := hq
            obtain ⟨hvfix, hvne, hvsub⟩ := matchBacktick_good hmb
            cases hf : app.find?
                (fun (it : HeaderItem) => rstripColon it.label == lv.1) with
            | none =>
                rw [hf] at hq'
                exact hacc q hq'
            | some it =>
                rw [hf] at hq'
                refine ih (dictSet acc it.key (pyStrip lv.2))
                  (fun x hx => hnl x (List.mem_cons_of_mem _ hx)) ?_ q hq'
                intro q' hq''
                rcases mem_dictSet hq'' with hmem | hrfl
                · exact hacc q' hmem
                · rw [hrfl]
                  refine ⟨pyStrip_idem _, ?_, ?_⟩
                  · show pyStrip lv.2 ≠ []
                    have hhead : isWs (lv.2.headD ' ') = false :=
                      head_not_ws_of_dropWhile_fix hvne hvfix
                    intro hc
                    have hall := (pyStrip_eq_nil_iff lv.2).mp hc
                    cases hlv2 : lv.2 with
                    | nil => exact hvne hlv2
                    | cons a as =>
                        rw [hlv2] at hall hhead
                        have := hall a (List.mem_cons_self a as)
                        rw [List.headD_cons] at hhead
                        rw [this] at hhead
                        exact Bool.true_eq_false.mp hhead
                  · show '\n' ∉ pyStrip lv.2
                    intro hc
                    exact hnl l (List.mem_cons_self l ls)
                      (mem_pyStrip (hvsub '\n' (mem_pyStrip hc)))

/-! ### Trim-fixedness through appends and joins -/

theorem storedVal_of_trimFixed {v : Str} (h : pyStrip v = v) :
    storedVal v = v := by
  unfold storedVal
  rw [trimFixed_dropEndWs h, trimFixed_dropWhile h, h]

theorem dropWhile_fix_append_left {p : Char → Bool} {a b : Str}
    (h : (a ++ b).dropWhile p = a ++ b) : a.dropWhile p = a := by
  cases a with
  | nil => rfl
  | cons c as =>
      rw [List.cons_append, List.dropWhile_cons] at h
      by_cases hc : p c
      · rw [if_pos hc] at h
        have hlen := congrArg List.length h
        have hle : ((as ++ b).dropWhile p).length ≤ (as ++ b).length :=
          (List.dropWhile_sublist _).length_le
        simp only [List.length_cons] at hlen
        omega
      · rw [List.dropWhile_cons, if_neg hc]

theorem dropEndWs_fix_append_right {a b : Str}
    (h : dropEndWs (a ++ b) = a ++ b) : dropEndWs b = b := by
  have hrev : ((a ++ b).reverse).dropWhile isWs = (a ++ b).reverse := by
    have h2 := congrArg List.reverse h
    unfold dropEndWs at h2
    simpa using h2
  rw [List.reverse_append] at hrev
  have hb : (b.reverse).dropWhile isWs = b.reverse :=
    dropWhile_fix_append_left hrev
  unfold dropEndWs
  rw [hb, List.reverse_reverse]

/-! ### The last line of a right-trimmed join is itself right-trimmed -/

theorem joinLines_concat_fix (init : List Str) (lst : Str)
    (hfix : dropEndWs (joinLines (init ++ [lst])) = joinLines (init ++ [lst]))
    (hne : pyStrip (joinLines (init ++ [lst])) ≠ []) :
    lst ≠ [] ∧ dropEndWs lst = lst := by
  cases init with
  | nil =>
      simp only [List.nil_append] at hfix hne
      rw [joinLines_singleton] at hfix hne
      exact ⟨fun hc => hne (by rw [hc]; rfl), hfix⟩
  | cons i is =>
      rw [joinLines_append (by simp) (by simp), joinLines_singleton,
        List.append_cons] at hfix
      refine ⟨?_, dropEndWs_fix_append_right hfix⟩
      intro hc
      subst hc
      rw [List.append_nil] at hfix
      have hg : (joinLines (i :: is) ++ ['\n']).getLast? = some '\n' := by
        rw [List.getLast?_append_of_ne_nil _ (by simp)]
        rfl
      have hw := getLast_not_ws_of_dropEndWs_fix (by simp) hfix '\n' hg
      exact absurd hw (by decide)

theorem dropEndWs_joinLines_fix {init : List Str} {last : Str}
    (hne : last ≠ []) (hfix : dropEndWs last = last) :
    dropEndWs (joinLines (init ++ [last])) = joinLines (init ++ [last]) := by
  rw [dropEndWs_joinLines_last init (by rw [hfix]; exact hne), hfix]

/-! ### The pairs behind the serialized header block -/

theorem mem_ser_pairs {D : List (Str × Str)} {app : HeaderConfig}
    {p : HeaderItem × Str}
    (h : p ∈ app.filterMap
        (fun j => (List.lookup j.key D).map (fun v => (j, v)))) :
    p.1 ∈ app ∧ List.lookup p.1.key D = some p.2 := by
  rcases List.mem_filterMap.mp h with ⟨j, hj, hjeq⟩
  cases hD : List.lookup j.key D with
  | none => rw [hD] at hjeq; simp at hjeq
  | some v =>
      rw [hD] at hjeq
      have hp : p = (j, v) := by simpa using hjeq.symm
      rw [hp]
      exact ⟨hj, hD⟩

theorem ser_pairs_fst_sublist (D : List (Str × Str)) (app : HeaderConfig) :
    ((app.filterMap
        (fun j => (List.lookup j.key D).map (fun v => (j, v)))).map
      Prod.fst).Sublist app := by
  induction app with
  | nil => simp
  | cons a rest ih =>
      rw [List.filterMap_cons]
      cases hD : List.lookup a.key D with
      | none =>
          simp only [Option.map_none']
          exact ih.cons a
      | some v =>
          simp only [Option.map_some', List.map_cons]
          exact ih.cons₂ a

theorem lookup_ser_pairs (D : List (Str × Str)) :
    ∀ (app : HeaderConfig), ((app.map (fun it => it.key)).Nodup) →
    ∀ it ∈ app,
    List.lookup it.key
      ((app.filterMap
          (fun j => (List.lookup j.key D).map (fun v => (j, v)))).map
        (fun (p : HeaderItem × Str) => (p.1.key, storedVal p.2)))
      = (List.lookup it.key D).map storedVal := by
  intro app
  induction app with
  | nil => intro _ it hit; simp at hit
  | cons a rest ih =>
      intro hnd it hit
      rw [List.map_cons, List.nodup_cons] at hnd
      rw [List.filterMap_cons]
      cases hD : List.lookup a.key D with
      | none =>
          simp only [Option.map_none']
          rcases List.mem_cons.mp hit with rfl | hit'
          · rw [hD]
            apply lookup_eq_none_of_no_key
            intro q hq
            rcases List.mem_map.mp hq with ⟨p, hp, hpe⟩
            have hp1 := (mem_ser_pairs hp).1
            rw [← hpe]
            show p.1.key ≠ it.key
            intro he
            exact hnd.1 (he ▸ List.mem_map_of_mem _ hp1)
          · exact ih hnd.2 it hit'
      | some v =>
          simp only [Option.map_some', List.map_cons]
          rw [List.lookup_cons]
          rcases List.mem_cons.mp hit with rfl | hit'
          · rw [show (it.key == it.key) = true from by simp, hD]
            rfl
          · have hne : it.key ≠ a.key := by
              intro he
              exact hnd.1 (he ▸ List.mem_map_of_mem _ hit')
            rw [show (it.key == a.key) = false from by simp [hne]]
            exact ih hnd.2 it hit'

theorem filterMap_ser_decomp (D : List (Str × Str)) (app : HeaderConfig) :
    app.filterMap (fun it => (List.lookup it.key D).map
        (fun v => serHeaderLine it.label v))
      = (app.filterMap
          (fun j => (List.lookup j.key D).map (fun v => (j, v)))).map
          (fun (p : HeaderItem × Str) => serHeaderLine p.1.label p.2) := by
  induction app with
  | nil => rfl
  | cons a rest ih =>
      rw [List.filterMap_cons, List.filterMap_cons]
      cases hD : List.lookup a.key D with
      | none =>
          simp only [Option.map_none']
          exact ih
      | some v =>
          simp only [Option.map_some', List.map_cons]
          rw [ih]

/-! ### The update loop on atomic-only update maps -/

theorem applyUpdates_cons (app : HeaderConfig) (d : List (Str × Str))
    (kv : Str × Str) (U : List (Str × Str)) :
    applyUpdates app d (kv :: U)
      = applyUpdates app
          (match app.find? (fun it => it.key == kv.1) with
           | none => d
           | some it =>
               if it.isList then
                 match d.lookup kv.1 with
                 | some existing =>
                     dictSet d kv.1 (joinComma (mergeValues
                       ((splitComma existing).map pyStrip)
                       ((splitComma kv.2).map pyStrip)))
                 | none => dictSet d kv.1 kv.2
               else dictSet d kv.1 kv.2) U := rfl

theorem applyUpdates_atomic (app : HeaderConfig) :
    ∀ (U : List (Str × Str)),
    (∀ kv ∈ U, ∃ it, app.find? (fun j => j.key == kv.1) = some it
        ∧ it.isList = false) →
    ∀ d, applyUpdates app d U
      = U.foldl (fun a kv => dictSet a kv.1 kv.2) d := by
  intro U
  induction U with
  | nil => intro _ d; rfl
  | cons kv U ih =>
      intro hU d
      obtain ⟨it, hit, hlist⟩ := hU kv (List.mem_cons_self kv U)
      rw [applyUpdates_cons]
      simp only [hit, hlist, Bool.false_eq_true, if_false]
      rw [List.foldl_cons]
      exact ih (fun q hq => hU q (List.mem_cons_of_mem _ hq)) _

/-! ### Re-serialization is a fixed point of the atomic update -/

/-- Re-running `update_managed_header` with the same atomic update map on
an already-updated serialization reproduces the content verbatim. -/
theorem updateMH_serialized_fixpoint
    (reg : TypeRegistry) (items : HeaderConfig) (U : List (Str × Str))
    (ty aid hl : Str) (d1 : List (Str × Str)) (tail : List Str)
    (hlabA : ∀ it ∈ applicableItems items ty, rstripColon it.label ≠ []
        ∧ ∀ c ∈ rstripColon it.label, c ≠ '`')
    (hlabN : ∀ it ∈ applicableItems items ty, '\n' ∉ rstripColon it.label)
    (hinjLA : ((applicableItems items ty).map
        (fun it => rstripColon it.label)).Nodup)
    (hinjKA : ((applicableItems items ty).map (fun it => it.key)).Nodup)
    (hU : ∀ kv ∈ U, ∃ it, (applicableItems items ty).find?
        (fun j => j.key == kv.1) = some it ∧ it.isList = false)
    (hUv : ∀ kv ∈ U, pyStrip kv.2 = kv.2 ∧ kv.2 ≠ [] ∧ '\n' ∉ kv.2)
    (hx : extractFromLine reg hl = some (ty, aid))
    (hlne : hl ≠ []) (hlfix : pyStrip hl = hl) (hlnl : '\n' ∉ hl)
    (hg1 : ∀ q ∈ d1, pyStrip q.2 = q.2 ∧ q.2 ≠ [] ∧ '\n' ∉ q.2)
    (htailnl : ∀ l ∈ tail, '\n' ∉ l)
    (htail : ∀ acc', parseML (applicableItems items ty) tail acc' = (acc', 0))
    (htailcase : tail = [] ∨ ((pyStrip (joinLines tail)).isEmpty = false
        ∧ dropEndWs (joinLines tail) = joinLines tail)) :
    updateManagedHeader reg items
      (joinLines (hl :: ((applicableItems items ty).filterMap (fun it =>
        (List.lookup it.key
            (applyUpdates (applicableItems items ty) d1 U)).map
          (fun v => serHeaderLine it.label v)) ++ tail))) U
      = .ok (joinLines (hl :: ((applicableItems items ty).filterMap (fun it =>
        (List.lookup it.key
            (applyUpdates (applicableItems items ty) d1 U)).map
          (fun v => serHeaderLine it.label v)) ++ tail))) := by
  set app := applicableItems items ty with happdef
  set D := applyUpdates app d1 U with hDdef
  set serLF := app.filterMap (fun it =>
    (List.lookup it.key D).map (fun v => serHeaderLine it.label v))
    with hserdef
  set ps := app.filterMap (fun j =>
    (List.lookup j.key D).map (fun v => (j, v))) with hpsdef
  set qs := ps.map (fun (p : HeaderItem × Str) =>
    (p.1.key, storedVal p.2)) with hqsdef
  have hDgood : ∀ k v, List.lookup k D = some v →
      pyStrip v = v ∧ v ≠ [] ∧ '\n' ∉ v := by
    intro k v hkv
    rw [hDdef, applyUpdates_atomic app U hU d1,
      lookup_foldl_dictSet U d1 k] at hkv
    cases hL : List.lookup k
        (U.foldl (fun a kv => dictSet a kv.1 kv.2) []) with
    | some w =>
        rw [hL] at hkv
        have hw : w = v := by simpa using hkv
        subst hw
        rcases mem_foldl_dictSet U [] (k, w) (lookup_mem hL) with hnil | hmemU
        · simp at hnil
        · exact hUv (k, w) hmemU
    | none =>
        rw [hL] at hkv
        have hd : List.lookup k d1 = some v := by simpa using hkv
        exact hg1 (k, v) (lookup_mem hd)
  have hserdec : serLF = ps.map
      (fun (p : HeaderItem × Str) => serHeaderLine p.1.label p.2) := by
    rw [hserdef, hpsdef]
    exact filterMap_ser_decomp D app
  have hserprops : ∀ l ∈ serLF, '\n' ∉ l ∧ l ≠ [] ∧ pyStrip l = l := by
    intro l hlm
    rw [hserdec] at hlm
    rcases List.mem_map.mp hlm with ⟨p, hp, rfl⟩
    rw [hpsdef] at hp
    obtain ⟨hpmem, hplook⟩ := mem_ser_pairs hp
    obtain ⟨hvfix, hvne, hvnl⟩ := hDgood _ _ hplook
    refine ⟨?_, ?_, ?_⟩
    · rw [serHeaderLine_eq]
      intro hc
      rcases List.mem_append.mp hc with hc1 | hc2
      · rcases List.mem_cons.mp hc1 with he | hc1'
        · exact absurd he (by decide)
        · rcases List.mem_append.mp hc1' with hc3 | hc4
          · exact hlabN p.1 hpmem hc3
          · exact absurd hc4 (by decide)
      · exact hvnl hc2
    · rw [serHeaderLine_eq]
      simp
    · rw [pyStrip_serHeaderLine _ _ (by rw [hvfix]; exact hvne),
        trimFixed_dropEndWs hvfix]
  have hallnl : ∀ l ∈ hl :: (serLF ++ tail), '\n' ∉ l := by
    intro l hlm
    rcases List.mem_cons.mp hlm with rfl | hlm'
    · exact hlnl
    · rcases List.mem_append.mp hlm' with h1 | h2
      · exact (hserprops l h1).1
      · exact htailnl l h2
  have hfixL : (joinLines (hl :: (serLF ++ tail))).dropWhile isWs
      = joinLines (hl :: (serLF ++ tail)) :=
    dropWhile_joinLines _ hlne (trimFixed_dropWhile hlfix)
  have hfixR : dropEndWs (joinLines (hl :: (serLF ++ tail)))
      = joinLines (hl :: (serLF ++ tail)) := by
    rcases htailcase with rfl | ⟨htne, htfix⟩
    · rw [List.append_nil]
      rcases List.eq_nil_or_concat serLF with hnil | ⟨init, lst, hconcat⟩
      · rw [hnil]
        show dropEndWs (joinLines [hl]) = joinLines [hl]
        rw [joinLines_singleton]
        exact trimFixed_dropEndWs hlfix
      · rw [List.concat_eq_append] at hconcat
        rw [hconcat]
        have hlst : lst ∈ serLF := by rw [hconcat]; simp
        obtain ⟨_, hlstne, hlstfix⟩ := hserprops lst hlst
        show dropEndWs (joinLines ((hl :: init) ++ [lst]))
            = joinLines ((hl :: init) ++ [lst])
        exact dropEndWs_joinLines_fix hlstne (trimFixed_dropEndWs hlstfix)
    · have htailne : tail ≠ [] := by
        intro hc
        rw [hc] at htne
        exact absurd htne (by decide)
      rcases List.eq_nil_or_concat tail with hc | ⟨tinit, tlast, hconcat⟩
      case inl => exact absurd hc htailne
      rw [List.concat_eq_append] at hconcat
      · obtain ⟨htlne, htlfix⟩ := joinLines_concat_fix tinit tlast
          (by rw [← hconcat]; exact htfix)
          (by
            rw [← hconcat]
            intro hc2
            rw [hc2] at htne
            exact absurd htne (by decide))
        rw [hconcat]
        rw [show hl :: (serLF ++ (tinit ++ [tlast]))
            = (hl :: (serLF ++ tinit)) ++ [tlast] from by simp]
        exact dropEndWs_joinLines_fix htlne htlfix
  have hfix : pyStrip (joinLines (hl :: (serLF ++ tail)))
      = joinLines (hl :: (serLF ++ tail)) :=
    pyStrip_eq_self_of _ hfixL hfixR
  have hsplit : splitNl (joinLines (hl :: (serLF ++ tail)))
      = hl :: (serLF ++ tail) :=
    splitNl_joinLines hallnl (by simp)
  have hx2 : extractTypeAndId reg (joinLines (hl :: (serLF ++ tail)))
      = some (ty, aid) := by
    unfold extractTypeAndId
    rw [hfix, hsplit, List.headD_cons, hlfix]
    exact hx
  have hne2 : (pyStrip ((splitNl (pyStrip (joinLines
      (hl :: (serLF ++ tail))))).headD [])).isEmpty = false := by
    rw [hfix, hsplit, List.headD_cons, hlfix]
    cases hhl : hl with
    | nil => exact absurd hhl hlne
    | cons a as => rfl
  have hps : ∀ p ∈ ps, p.1 ∈ app ∧ pyStrip p.2 ≠ [] := by
    intro p hp
    rw [hpsdef] at hp
    obtain ⟨hpmem, hplook⟩ := mem_ser_pairs hp
    obtain ⟨hvfix, hvne, _⟩ := hDgood _ _ hplook
    exact ⟨hpmem, by rw [hvfix]; exact hvne⟩
  have hparse2 : parseML app (serLF ++ tail) []
      = (qs.foldl (fun a q => dictSet a q.1 q.2) [], ps.length) := by
    rw [hserdec, hqsdef]
    exact parseML_ser_append app hlabA hinjLA ps tail hps htail []
  have hqsnodup : (qs.map (fun q => q.1)).Nodup := by
    rw [hqsdef, List.map_map]
    have hcomp : ((fun (q : Str × Str) => q.1) ∘
        (fun (p : HeaderItem × Str) => (p.1.key, storedVal p.2)))
        = fun (p : HeaderItem × Str) => p.1.key := rfl
    rw [hcomp]
    have hsub : (ps.map Prod.fst).Sublist app := by
      rw [hpsdef]
      exact ser_pairs_fst_sublist D app
    have hre : (ps.map (fun (p : HeaderItem × Str) => p.1.key))
        = (ps.map Prod.fst).map (fun it => it.key) := by
      rw [List.map_map]
      rfl
    rw [hre]
    exact List.Nodup.sublist (List.Sublist.map _ hsub) hinjKA
  have hd2 : qs.foldl (fun a q => dictSet a q.1 q.2) [] = qs := by
    have hq := foldl_dictSet_of_nodup qs [] (by simpa using hqsnodup)
    simpa using hq
  have hq2D : ∀ it ∈ app, List.lookup it.key qs = List.lookup it.key D := by
    intro it hit
    rw [hqsdef, hpsdef, lookup_ser_pairs D app hinjKA it hit]
    cases hDk : List.lookup it.key D with
    | none => rfl
    | some v =>
        obtain ⟨hvfix, _, _⟩ := hDgood _ _ hDk
        rw [Option.map_some', storedVal_of_trimFixed hvfix]
  have hstable : ∀ it ∈ app,
      List.lookup it.key (applyUpdates app qs U)
        = List.lookup it.key D := by
    intro it hit
    rw [applyUpdates_atomic app U hU qs, lookup_foldl_dictSet U qs it.key,
      hq2D it hit, hDdef, applyUpdates_atomic app U hU d1,
      lookup_foldl_dictSet U d1 it.key]
    cases List.lookup it.key
        (U.foldl (fun a kv => dictSet a kv.1 kv.2) []) with
    | some w => rfl
    | none => rfl
  have hser2 : app.filterMap (fun it =>
      (List.lookup it.key (applyUpdates app qs U)).map
        (fun v => serHeaderLine it.label v)) = serLF := by
    rw [hserdef]
    exact List.filterMap_congr (fun it hit => by rw [hstable it hit])
  rw [updateManagedHeader_eq reg items _ U ty aid hx2 hne2, ← happdef]
  simp only [hfix, hsplit, List.headD_cons, hlfix, List.drop_one,
    List.tail_cons, hparse2]
  rw [hd2, hser2]
  rw [show (1 : Nat) + ps.length = ps.length + 1 from Nat.add_comm 1 _]
  rw [show (hl :: (serLF ++ tail)).drop (ps.length + 1)
      = (serLF ++ tail).drop ps.length from rfl]
  have hlen : serLF.length = ps.length := by
    rw [hserdec, List.length_map]
  rw [show (serLF ++ tail).drop ps.length = tail from by
    rw [← hlen, List.drop_left]]
  rcases htailcase with rfl | ⟨htne, _⟩
  · rw [if_pos (by rfl), List.append_nil]
  · have htailne2 : tail ≠ [] := by
      intro hc
      rw [hc] at htne
      exact absurd htne (by decide)
    rw [if_neg (by
      intro h
      rw [h] at htne
      exact absurd htne (by decide))]
    rw [joinLines_flatten (hl :: serLF) htailne2]
    rw [show (hl :: serLF) ++ tail = hl :: (serLF ++ tail) from by simp]


/-- **C6 (amended).** `update_managed_header` is idempotent for update
maps whose keys are all applicable atomic-kind fields and whose values
are single-line, whitespace-trimmed, non-empty strings (the unrestricted
claim fails, e.g. for the empty value): re-applying the same update map
to the produced content returns it unchanged. -/
theorem updateManagedHeader_atomic_idempotent
    (reg : TypeRegistry) (items : HeaderConfig) (content c1 : Str)
    (U : List (Str × Str)) (ty aid : Str)
    (hty : extractTypeAndId reg content = some (ty, aid))
    (hlab : ∀ it ∈ items, rstripColon it.label ≠ []
        ∧ ∀ c ∈ rstripColon it.label, c ≠ '`' ∧ c ≠ '\n')
    (hinjL : (items.map (fun it => rstripColon it.label)).Nodup)
    (hinjK : (items.map (fun it => it.key)).Nodup)
    (hU : ∀ kv ∈ U, ∃ it, (applicableItems items ty).find?
        (fun j => j.key == kv.1) = some it ∧ it.isList = false)
    (hUv : ∀ kv ∈ U, pyStrip kv.2 = kv.2 ∧ kv.2 ≠ [] ∧ '\n' ∉ kv.2)
    (h1 : updateManagedHeader reg items content U = .ok c1) :
    updateManagedHeader reg items c1 U = .ok c1 := by
  have happ : (applicableItems items ty).Sublist items :=
    List.filter_sublist items
  have hlabA : ∀ it ∈ applicableItems items ty, rstripColon it.label ≠ []
      ∧ ∀ c ∈ rstripColon it.label, c ≠ '`' :=
    fun it hit => ⟨(hlab it (happ.subset hit)).1,
      fun c hc => ((hlab it (happ.subset hit)).2 c hc).1⟩
  have hlabN : ∀ it ∈ applicableItems items ty,
      '\n' ∉ rstripColon it.label :=
    fun it hit hc => ((hlab it (happ.subset hit)).2 _ hc).2 rfl
  have hinjLA : ((applicableItems items ty).map
      (fun it => rstripColon it.label)).Nodup :=
    List.Nodup.sublist (List.Sublist.map _ happ) hinjL
  have hinjKA : ((applicableItems items ty).map (fun it => it.key)).Nodup :=
    List.Nodup.sublist (List.Sublist.map _ happ) hinjK
  have hne1 : (pyStrip ((splitNl (pyStrip content)).headD [])).isEmpty
      = false := by
    by_contra hc
    rw [Bool.not_eq_false] at hc
    rw [updateManagedHeader_empty_header reg items content U hc] at h1
    exact Except.noConfusion h1
  rw [updateManagedHeader_eq reg items content U ty aid hty hne1] at h1
  rw [Except.ok.injEq] at h1
  subst h1
  have hlne : pyStrip ((splitNl (pyStrip content)).headD []) ≠ [] := by
    intro hc
    rw [hc] at hne1
    exact absurd hne1 (by decide)
  have hlfix : pyStrip (pyStrip ((splitNl (pyStrip content)).headD []))
      = pyStrip ((splitNl (pyStrip content)).headD []) := pyStrip_idem _
  have hlnl : '\n' ∉ pyStrip ((splitNl (pyStrip content)).headD []) := by
    intro hc
    have h2 := mem_pyStrip hc
    cases hL : splitNl (pyStrip content) with
    | nil => exact absurd hL (splitNl_ne_nil _)
    | cons a as =>
        rw [hL, List.headD_cons] at h2
        exact splitNl_nl_free (pyStrip content) a (by rw [hL]; simp) h2
  have hg1 : ∀ q ∈ (parseML (applicableItems items ty)
      ((splitNl (pyStrip content)).drop 1) []).1,
      pyStrip q.2 = q.2 ∧ q.2 ≠ [] ∧ '\n' ∉ q.2 :=
    parseML_good _ _ []
      (fun l hlm => splitNl_nl_free (pyStrip content) l
        (List.drop_subset _ _ hlm))
      (fun q hq => absurd hq (List.not_mem_nil q))
  by_cases hbody : (pyStrip (joinLines ((splitNl (pyStrip content)).drop
      (1 + (parseML (applicableItems items ty)
        ((splitNl (pyStrip content)).drop 1) []).2)))).isEmpty
  · rw [if_pos hbody]
    have hfp := updateMH_serialized_fixpoint reg items U ty aid
      (pyStrip ((splitNl (pyStrip content)).headD []))
      (parseML (applicableItems items ty)
        ((splitNl (pyStrip content)).drop 1) []).1 []
      hlabA hlabN hinjLA hinjKA hU hUv hty hlne hlfix hlnl hg1
      (fun l hlm => absurd hlm (List.not_mem_nil l))
      (fun acc' => rfl) (Or.inl rfl)
    rw [List.append_nil] at hfp
    exact hfp
  · rw [if_neg hbody]
    have hbody' : (pyStrip (joinLines ((splitNl (pyStrip content)).drop
        (1 + (parseML (applicableItems items ty)
          ((splitNl (pyStrip content)).drop 1) []).2)))).isEmpty
        = false := by simpa using hbody
    have htlne : (splitNl (pyStrip content)).drop
        (1 + (parseML (applicableItems items ty)
          ((splitNl (pyStrip content)).drop 1) []).2) ≠ [] := by
      intro hc
      rw [hc] at hbody'
      exact absurd hbody' (by decide)
    have htailnl : ∀ l ∈ (splitNl (pyStrip content)).drop
        (1 + (parseML (applicableItems items ty)
          ((splitNl (pyStrip content)).drop 1) []).2), '\n' ∉ l :=
      fun l hlm => splitNl_nl_free (pyStrip content) l
        (List.drop_subset _ _ hlm)
    have htail : ∀ acc', parseML (applicableItems items ty)
        ((splitNl (pyStrip content)).drop
          (1 + (parseML (applicableItems items ty)
            ((splitNl (pyStrip content)).drop 1) []).2)) acc'
        = (acc', 0) := by
      intro acc'
      have hbr := parseML_drop_break (applicableItems items ty)
        ((splitNl (pyStrip content)).drop 1) [] acc'
      rw [List.drop_drop] at hbr
      exact hbr
    have htfix : dropEndWs (joinLines ((splitNl (pyStrip content)).drop
        (1 + (parseML (applicableItems items ty)
          ((splitNl (pyStrip content)).drop 1) []).2)))
        = joinLines ((splitNl (pyStrip content)).drop
          (1 + (parseML (applicableItems items ty)
            ((splitNl (pyStrip content)).drop 1) []).2)) := by
      have hfixall : dropEndWs (joinLines (splitNl (pyStrip content)))
          = joinLines (splitNl (pyStrip content)) := by
        rw [joinLines_splitNl]
        exact pyStrip_dropEndWs_fix content
      have htakene : (splitNl (pyStrip content)).take
          (1 + (parseML (applicableItems items ty)
            ((splitNl (pyStrip content)).drop 1) []).2) ≠ [] := by
        cases hL : splitNl (pyStrip content) with
        | nil => exact absurd hL (splitNl_ne_nil _)
        | cons a as =>
            rw [Nat.add_comm]
            simp [List.take_succ_cons]
      have hto : splitNl (pyStrip content)
          = (splitNl (pyStrip content)).take
              (1 + (parseML (applicableItems items ty)
                ((splitNl (pyStrip content)).drop 1) []).2)
            ++ (splitNl (pyStrip content)).drop
              (1 + (parseML (applicableItems items ty)
                ((splitNl (pyStrip content)).drop 1) []).2) :=
        (List.take_append_drop _ _).symm
      rw [hto, joinLines_append htakene htlne, List.append_cons] at hfixall
      exact dropEndWs_fix_append_right hfixall
    rw [joinLines_flatten _ htlne]
    exact updateMH_serialized_fixpoint reg items U ty aid
      (pyStrip ((splitNl (pyStrip content)).headD []))
      (parseML (applicableItems items ty)
        ((splitNl (pyStrip content)).drop 1) []).1
      ((splitNl (pyStrip content)).drop
        (1 + (parseML (applicableItems items ty)
          ((splitNl (pyStrip content)).drop 1) []).2))
      hlabA hlabN hinjLA hinjKA hU hUv hty hlne hlfix hlnl hg1
      htailnl htail (Or.inr ⟨hbody', htfix⟩)


/-- Witness for the amended idempotence theorem: re-applying
`{STATUS: "NEW"}` to the once-updated REQ artifact leaves it unchanged. -/
theorem updateManagedHeader_atomic_idempotent_witness :
    updateManagedHeader sampleReg sampleItems
        (str "### REQ-1: Title\n`Status`: NEW\nBody text")
        [(str "STATUS", str "NEW")]
      = .ok (str "### REQ-1: Title\n`Status`: NEW\nBody text") :=
  updateManagedHeader_atomic_idempotent sampleReg sampleItems c5Content
    (str "### REQ-1: Title\n`Status`: NEW\nBody text")
    [(str "STATUS", str "NEW")] (str "REQ") (str "REQ-1")
    (by rfl)
    (by decide)
    (by decide)
    (by decide)
    (by
      intro kv hkv
      rw [List.mem_singleton] at hkv
      subst hkv
      exact ⟨_, rfl, rfl⟩)
    (by decide)
    (by rfl)


end Respect
